import Mathlib

/-!
A shallow embedding of the `cosmo` distance/age engine.

The Go package computes with `float64`.  The embedding idealises `float64`
as the real numbers: `math.Sqrt` is `Real.sqrt`, `math.Sinh` is `Real.sinh`,
`math.Asinh` is `Real.arsinh`, `math.Pow` is real exponentiation, `math.Exp`
is `Real.exp`, `math.Log10` is the base-10 logarithm, `cmplx.Sqrt` is the
principal complex square root and `cmplx.Sinh` is `Complex.sinh`.  Rounding,
`NaN` and infinities are outside this model; a division by zero evaluates to
zero here, so statements that depend on one carry the hypotheses that keep
the denominators away from zero.  For the matter-only closed forms a second
reading (`...Checked`) keeps the float operations partial, so that an input at
which Go leaves the real numbers is visible as `none`.

Code outside `lambdacdm.go`, `wacdm.go` and `util.go` is taken as a parameter:
the physical constants (`Consts`), the quadrature and elliptic-integral
primitives and the `FlatLCDM` / `WCDM` models (`Prims`).
-/

namespace Cosmo

/-! ## Parameters standing for code outside the three source files -/

/-- Physical constants used by `util.go` and declared elsewhere in the package. -/
structure Consts where
  SpeedOfLightKmS : ℝ
  kmInAMpc : ℝ
  secInAGyr : ℝ

/-- Parameter set of the flat model: `FlatLCDM{H0, Om0}`. -/
structure FlatLCDM where
  H0 : ℝ
  Om0 : ℝ

/-- Parameter set of the constant-w model: `WCDM{H0, Om0, Ol0, W0}`. -/
structure WCDM where
  H0 : ℝ
  Om0 : ℝ
  Ol0 : ℝ
  W0 : ℝ

/-- Functions consumed by the three source files and defined outside them:
`quad.Fixed(f, min, max, n, nil, 0)` (bounds may be infinite),
`mathext.EllipticRF`, and the methods of `FlatLCDM` and `WCDM` that the
dispatches delegate to. -/
structure Prims where
  quadFixed : (ℝ → ℝ) → EReal → EReal → ℕ → ℝ
  EllipticRF : ℝ → ℝ → ℝ → ℝ
  flatComovingDistanceZ1Z2 : FlatLCDM → ℝ → ℝ → ℝ
  flatLookbackTime : FlatLCDM → ℝ → ℝ
  flatAge : FlatLCDM → ℝ → ℝ
  wcdmComovingDistanceZ1Z2 : WCDM → ℝ → ℝ → ℝ
  wcdmLookbackTime : WCDM → ℝ → ℝ
  wcdmAge : WCDM → ℝ → ℝ

/-- The part of the `FLRW` interface that `comovingTransverseDistanceZ1Z2`
calls on its receiver. -/
structure FLRW where
  ComovingDistanceZ1Z2 : ℝ → ℝ → ℝ
  Ok0 : ℝ
  HubbleDistance : ℝ

/-! ## Library functions of Go -/

/-- The function `cmplx.Sqrt`: the principal square root. -/
noncomputable def csqrt (x : ℂ) : ℂ := x ^ (1 / 2 : ℂ)

/-- The function `math.Log10`. -/
noncomputable def log10 (x : ℝ) : ℝ := Real.logb 10 x

/-! ## util.go -/

/-- The function `hubbleDistance` of `util.go`. -/
noncomputable def hubbleDistance (c : Consts) (H0 : ℝ) : ℝ :=
  c.SpeedOfLightKmS / H0

/-- The function `hubbleTime` of `util.go`. -/
noncomputable def hubbleTime (c : Consts) (H0 : ℝ) : ℝ :=
  ((1 / H0) * c.kmInAMpc) / c.secInAGyr

/-- The function `ageOL` of `util.go`. -/
noncomputable def ageOL (c : Consts) (z Ol0 H0 : ℝ) : ℝ :=
  hubbleTime c H0 * (1 / Real.sqrt Ol0) *
    Real.arsinh (1 / ((1 + z) * Real.sqrt ((1 / Ol0) - 1)))

/-- The function `ageOM` of `util.go`. -/
noncomputable def ageOM (c : Consts) (z Om0 H0 : ℝ) : ℝ :=
  if Om0 = 1 then
    (2 / 3) * hubbleTime c H0 * (1 + z) ^ (-3 / 2 : ℝ)
  else
    hubbleTime c H0 *
      (Real.sqrt (1 + Om0 * z) / ((1 - Om0) * (1 + z)) -
        Om0 * (1 - Om0) ^ (-3 / 2 : ℝ) * Real.arsinh (Real.sqrt ((1 / Om0 - 1) / (1 + z))))

/-- The function `lookbackTimeOL` of `util.go`. -/
noncomputable def lookbackTimeOL (c : Consts) (z Ol0 H0 : ℝ) : ℝ :=
  ageOL c 0 Ol0 H0 - ageOL c z Ol0 H0

/-- The function `lookbackTimeOM` of `util.go`. -/
noncomputable def lookbackTimeOM (c : Consts) (z Om0 H0 : ℝ) : ℝ :=
  ageOM c 0 Om0 H0 - ageOM c z Om0 H0

/-- The function `comovingTransverseDistanceOM` of `util.go` (Mattig's formula). -/
noncomputable def comovingTransverseDistanceOM (c : Consts) (z Om0 H0 : ℝ) : ℝ :=
  (c.SpeedOfLightKmS / H0) *
    2 * (2 - Om0 * (1 - z) - (2 - Om0) * Real.sqrt (1 + Om0 * z)) /
    ((1 + z) * Om0 * Om0)

/-- The function `comovingDistanceOM` of `util.go`. -/
noncomputable def comovingDistanceOM (c : Consts) (z Om0 H0 : ℝ) : ℝ :=
  let comovingTransverseDistance := comovingTransverseDistanceOM c z Om0 H0
  let Ok0 := 1 - Om0
  if Ok0 = 0 then
    comovingTransverseDistance
  else
    let hubbleDistance := c.SpeedOfLightKmS / H0
    let hdk := hubbleDistance / Real.sqrt Ok0
    hdk * Real.arsinh (comovingTransverseDistance / hdk)

/-- The function `comovingDistanceOMZ1Z2` of `util.go`. -/
noncomputable def comovingDistanceOMZ1Z2 (c : Consts) (z1 z2 Om0 H0 : ℝ) : ℝ :=
  comovingDistanceOM c z2 Om0 H0 - comovingDistanceOM c z1 Om0 H0

/-- The complex expression of the `Ok0 < 0` case of
`comovingTransverseDistanceZ1Z2`, before its real part is taken. -/
noncomputable def closedAnswer (hubbleDistance Ok0 comovingDistance : ℝ) : ℂ :=
  (hubbleDistance : ℂ) / csqrt (Ok0 : ℂ) *
    Complex.sinh (csqrt (Ok0 : ℂ) * (comovingDistance : ℂ) / (hubbleDistance : ℂ))

/-- The function `comovingTransverseDistanceZ1Z2` of `util.go`.  The Go
`switch` leaves `result` at its zero value when no case fires. -/
noncomputable def comovingTransverseDistanceZ1Z2 (cos : FLRW) (z1 z2 : ℝ) : ℝ :=
  let comovingDistance := cos.ComovingDistanceZ1Z2 z1 z2
  let Ok0 := cos.Ok0
  let hubbleDistance := cos.HubbleDistance
  if Ok0 = 0 then
    comovingDistance
  else if Ok0 > 0 then
    hubbleDistance / Real.sqrt Ok0 *
      Real.sinh (Real.sqrt Ok0 * comovingDistance / hubbleDistance)
  else if Ok0 < 0 then
    (closedAnswer hubbleDistance Ok0 comovingDistance).re
  else
    0

/-- The function `tElliptic` of `util.go`. -/
noncomputable def tElliptic (p : Prims) (s : ℝ) : ℝ :=
  let m := (2 * Real.sqrt (s * s - s + 1) / s) + (2 / s) - 1
  let x := m
  let y := m + 3 - 2 * Real.sqrt 3
  let z := m + 3 + 2 * Real.sqrt 3
  4 * p.EllipticRF x y z

/-! ## lambdacdm.go -/

/-- Parameter set of `LambdaCDM`. -/
structure LambdaCDM where
  H0 : ℝ
  Om0 : ℝ
  Ol0 : ℝ
  Ogamma0 : ℝ
  Onu0 : ℝ

namespace LambdaCDM

/-- The method `LambdaCDM.Ok0`. -/
noncomputable def Ok0 (cos : LambdaCDM) : ℝ :=
  1 - (cos.Om0 + cos.Ol0)

/-- The method `LambdaCDM.HubbleDistance`. -/
noncomputable def HubbleDistance (c : Consts) (cos : LambdaCDM) : ℝ :=
  hubbleDistance c cos.H0

/-- The method `LambdaCDM.E`. -/
noncomputable def E (cos : LambdaCDM) (z : ℝ) : ℝ :=
  let oR := cos.Ogamma0 + cos.Onu0
  let deScale : ℝ := 1
  let Ok0 := 1 - (cos.Om0 + cos.Ol0)
  Real.sqrt ((1 + z) * (1 + z) * ((oR * (1 + z) + cos.Om0) * (1 + z) + Ok0) + cos.Ol0 * deScale)

/-- The method `LambdaCDM.Einv`. -/
noncomputable def Einv (cos : LambdaCDM) (z : ℝ) : ℝ :=
  1 / cos.E z

/-- The method `LambdaCDM.comovingDistanceZ1Z2Integrate`. -/
noncomputable def comovingDistanceZ1Z2Integrate (c : Consts) (p : Prims) (cos : LambdaCDM)
    (z1 z2 : ℝ) : ℝ :=
  let n := 1000
  HubbleDistance c cos * p.quadFixed cos.Einv (z1 : EReal) (z2 : EReal) n

/-- The method `LambdaCDM.ComovingDistanceZ1Z2`. -/
noncomputable def ComovingDistanceZ1Z2 (c : Consts) (p : Prims) (cos : LambdaCDM)
    (z1 z2 : ℝ) : ℝ :=
  if cos.Ok0 = 0 ∧ cos.Om0 < 1 then
    p.flatComovingDistanceZ1Z2 ⟨cos.H0, cos.Om0⟩ z1 z2
  else if cos.Ol0 = 0 then
    comovingDistanceOMZ1Z2 c z1 z2 cos.Om0 cos.H0
  else
    comovingDistanceZ1Z2Integrate c p cos z1 z2

/-- The method `LambdaCDM.ComovingDistance`. -/
noncomputable def ComovingDistance (c : Consts) (p : Prims) (cos : LambdaCDM) (z : ℝ) : ℝ :=
  ComovingDistanceZ1Z2 c p cos 0 z

/-- The value `cos` seen through the `FLRW` interface. -/
noncomputable def toFLRW (c : Consts) (p : Prims) (cos : LambdaCDM) : FLRW :=
  ⟨ComovingDistanceZ1Z2 c p cos, cos.Ok0, HubbleDistance c cos⟩

/-- The method `LambdaCDM.ComovingTransverseDistanceZ1Z2`. -/
noncomputable def ComovingTransverseDistanceZ1Z2 (c : Consts) (p : Prims) (cos : LambdaCDM)
    (z1 z2 : ℝ) : ℝ :=
  comovingTransverseDistanceZ1Z2 (toFLRW c p cos) z1 z2

/-- The method `LambdaCDM.ComovingTransverseDistance`. -/
noncomputable def ComovingTransverseDistance (c : Consts) (p : Prims) (cos : LambdaCDM)
    (z : ℝ) : ℝ :=
  ComovingTransverseDistanceZ1Z2 c p cos 0 z

/-- The method `LambdaCDM.LuminosityDistance`. -/
noncomputable def LuminosityDistance (c : Consts) (p : Prims) (cos : LambdaCDM) (z : ℝ) : ℝ :=
  (1 + z) * ComovingTransverseDistance c p cos z

/-- The method `LambdaCDM.AngularDiameterDistance`. -/
noncomputable def AngularDiameterDistance (c : Consts) (p : Prims) (cos : LambdaCDM)
    (z : ℝ) : ℝ :=
  ComovingTransverseDistance c p cos z / (1 + z)

/-- The method `LambdaCDM.DistanceModulus`. -/
noncomputable def DistanceModulus (c : Consts) (p : Prims) (cos : LambdaCDM) (z : ℝ) : ℝ :=
  5 * log10 (LuminosityDistance c p cos z) + 25

/-- The integrand built inside `LambdaCDM.lookbackTimeIntegrate`. -/
noncomputable def lookbackIntegrand (cos : LambdaCDM) (z : ℝ) : ℝ :=
  cos.Einv z / (1 + z)

/-- The method `LambdaCDM.lookbackTimeIntegrate`. -/
noncomputable def lookbackTimeIntegrate (c : Consts) (p : Prims) (cos : LambdaCDM)
    (z : ℝ) : ℝ :=
  let n := 1000
  hubbleTime c cos.H0 * p.quadFixed (lookbackIntegrand cos) (0 : EReal) (z : EReal) n

/-- The integrand built inside `LambdaCDM.ageIntegrate`. -/
noncomputable def ageIntegrand (cos : LambdaCDM) (z : ℝ) : ℝ :=
  let denom := (1 + z) * Real.sqrt ((1 + z) * (1 + z) * (1 + cos.Om0 * z) - z * (2 + z) * cos.Ol0)
  1 / denom

/-- The method `LambdaCDM.ageIntegrate`; the upper bound is `math.Inf(1)`. -/
noncomputable def ageIntegrate (c : Consts) (p : Prims) (cos : LambdaCDM) (z : ℝ) : ℝ :=
  let n := 1000
  hubbleTime c cos.H0 * p.quadFixed (ageIntegrand cos) (z : EReal) ⊤ n

/-- The method `LambdaCDM.LookbackTime`. -/
noncomputable def LookbackTime (c : Consts) (p : Prims) (cos : LambdaCDM) (z : ℝ) : ℝ :=
  if cos.Ok0 = 0 ∧ cos.Om0 < 1 then
    p.flatLookbackTime ⟨cos.H0, cos.Om0⟩ z
  else if cos.Ol0 = 0 ∧ 0 < cos.Om0 ∧ cos.Om0 ≠ 1 then
    lookbackTimeOM c z cos.Om0 cos.H0
  else if cos.Om0 = 0 ∧ 0 < cos.Ol0 ∧ cos.Ol0 < 1 then
    lookbackTimeOL c z cos.Ol0 cos.H0
  else
    lookbackTimeIntegrate c p cos z

/-- The method `LambdaCDM.Age`. -/
noncomputable def Age (c : Consts) (p : Prims) (cos : LambdaCDM) (z : ℝ) : ℝ :=
  if cos.Ok0 = 0 ∧ cos.Om0 < 1 then
    p.flatAge ⟨cos.H0, cos.Om0⟩ z
  else if cos.Ol0 = 0 ∧ 0 < cos.Om0 ∧ cos.Om0 ≠ 1 then
    ageOM c z cos.Om0 cos.H0
  else if cos.Om0 = 0 ∧ 0 < cos.Ol0 ∧ cos.Ol0 < 1 then
    ageOL c z cos.Ol0 cos.H0
  else
    ageIntegrate c p cos z

end LambdaCDM

/-! ## wacdm.go -/

/-- Parameter set of `WACDM`. -/
structure WACDM where
  H0 : ℝ
  Om0 : ℝ
  Ol0 : ℝ
  W0 : ℝ
  WA : ℝ
  Ogamma0 : ℝ
  Onu0 : ℝ

namespace WACDM

/-- The method `WACDM.Ok0`. -/
noncomputable def Ok0 (cos : WACDM) : ℝ :=
  1 - (cos.Om0 + cos.Ol0)

/-- The method `WACDM.HubbleDistance`. -/
noncomputable def HubbleDistance (c : Consts) (cos : WACDM) : ℝ :=
  hubbleDistance c cos.H0

/-- The dark-energy scale factor `deScale` computed by the `switch` of `WACDM.E`. -/
noncomputable def deScale (cos : WACDM) (z : ℝ) : ℝ :=
  if cos.W0 = -1 ∧ cos.WA = 0 then
    1
  else if cos.WA = 0 then
    (1 + z) ^ (3 * (1 + cos.W0))
  else
    (1 + z) ^ (3 * (1 + cos.W0 + cos.WA)) * Real.exp (-3 * cos.WA * z / (1 + z))

/-- The method `WACDM.E`. -/
noncomputable def E (cos : WACDM) (z : ℝ) : ℝ :=
  let oR := cos.Ogamma0 + cos.Onu0
  let Ok0 := 1 - (cos.Om0 + cos.Ol0)
  Real.sqrt ((1 + z) * (1 + z) * (1 + z) * (1 + z) * oR + (1 + z) * (1 + z) * (1 + z) * cos.Om0 +
    (1 + z) * (1 + z) * Ok0 + cos.Ol0 * deScale cos z)

/-- The method `WACDM.Einv`. -/
noncomputable def Einv (cos : WACDM) (z : ℝ) : ℝ :=
  1 / cos.E z

/-- The method `WACDM.comovingDistanceZ1Z2Integrate`. -/
noncomputable def comovingDistanceZ1Z2Integrate (c : Consts) (p : Prims) (cos : WACDM)
    (z1 z2 : ℝ) : ℝ :=
  let n := 1000
  HubbleDistance c cos * p.quadFixed cos.Einv (z1 : EReal) (z2 : EReal) n

/-- The method `WACDM.ComovingDistanceZ1Z2`. -/
noncomputable def ComovingDistanceZ1Z2 (c : Consts) (p : Prims) (cos : WACDM)
    (z1 z2 : ℝ) : ℝ :=
  if cos.Ol0 = 0 then
    comovingDistanceOMZ1Z2 c z1 z2 cos.Om0 cos.H0
  else if cos.WA = 0 then
    p.wcdmComovingDistanceZ1Z2 ⟨cos.H0, cos.Om0, cos.Ol0, cos.W0⟩ z1 z2
  else
    comovingDistanceZ1Z2Integrate c p cos z1 z2

/-- The method `WACDM.ComovingDistance`. -/
noncomputable def ComovingDistance (c : Consts) (p : Prims) (cos : WACDM) (z : ℝ) : ℝ :=
  ComovingDistanceZ1Z2 c p cos 0 z

/-- The value `cos` seen through the `FLRW` interface. -/
noncomputable def toFLRW (c : Consts) (p : Prims) (cos : WACDM) : FLRW :=
  ⟨ComovingDistanceZ1Z2 c p cos, cos.Ok0, HubbleDistance c cos⟩

/-- The method `WACDM.ComovingTransverseDistanceZ1Z2`. -/
noncomputable def ComovingTransverseDistanceZ1Z2 (c : Consts) (p : Prims) (cos : WACDM)
    (z1 z2 : ℝ) : ℝ :=
  comovingTransverseDistanceZ1Z2 (toFLRW c p cos) z1 z2

/-- The method `WACDM.ComovingTransverseDistance`. -/
noncomputable def ComovingTransverseDistance (c : Consts) (p : Prims) (cos : WACDM)
    (z : ℝ) : ℝ :=
  ComovingTransverseDistanceZ1Z2 c p cos 0 z

/-- The method `WACDM.LuminosityDistance`. -/
noncomputable def LuminosityDistance (c : Consts) (p : Prims) (cos : WACDM) (z : ℝ) : ℝ :=
  (1 + z) * ComovingTransverseDistance c p cos z

/-- The method `WACDM.AngularDiameterDistance`. -/
noncomputable def AngularDiameterDistance (c : Consts) (p : Prims) (cos : WACDM)
    (z : ℝ) : ℝ :=
  ComovingTransverseDistance c p cos z / (1 + z)

/-- The method `WACDM.DistanceModulus`. -/
noncomputable def DistanceModulus (c : Consts) (p : Prims) (cos : WACDM) (z : ℝ) : ℝ :=
  5 * log10 (LuminosityDistance c p cos z) + 25

/-- The integrand built inside `WACDM.lookbackTimeIntegrate`. -/
noncomputable def lookbackIntegrand (cos : WACDM) (z : ℝ) : ℝ :=
  cos.Einv z / (1 + z)

/-- The method `WACDM.lookbackTimeIntegrate`. -/
noncomputable def lookbackTimeIntegrate (c : Consts) (p : Prims) (cos : WACDM)
    (z : ℝ) : ℝ :=
  let n := 1000
  hubbleTime c cos.H0 * p.quadFixed (lookbackIntegrand cos) (0 : EReal) (z : EReal) n

/-- The integrand built inside `WACDM.ageIntegrate`. -/
noncomputable def ageIntegrand (cos : WACDM) (z : ℝ) : ℝ :=
  let denom := (1 + z) * cos.E z
  1 / denom

/-- The method `WACDM.ageIntegrate`; the upper bound is `math.Inf(1)`. -/
noncomputable def ageIntegrate (c : Consts) (p : Prims) (cos : WACDM) (z : ℝ) : ℝ :=
  let n := 1000
  hubbleTime c cos.H0 * p.quadFixed (ageIntegrand cos) (z : EReal) ⊤ n

/-- The method `WACDM.LookbackTime`. -/
noncomputable def LookbackTime (c : Consts) (p : Prims) (cos : WACDM) (z : ℝ) : ℝ :=
  if cos.Ol0 = 0 ∧ 0 < cos.Om0 ∧ cos.Om0 ≠ 1 then
    lookbackTimeOM c z cos.Om0 cos.H0
  else if cos.WA = 0 then
    p.wcdmLookbackTime ⟨cos.H0, cos.Om0, cos.Ol0, cos.W0⟩ z
  else
    lookbackTimeIntegrate c p cos z

/-- The method `WACDM.Age`. -/
noncomputable def Age (c : Consts) (p : Prims) (cos : WACDM) (z : ℝ) : ℝ :=
  if cos.Ol0 = 0 ∧ 0 < cos.Om0 ∧ cos.Om0 ≠ 1 then
    ageOM c z cos.Om0 cos.H0
  else if cos.WA = 0 then
    p.wcdmAge ⟨cos.H0, cos.Om0, cos.Ol0, cos.W0⟩ z
  else
    ageIntegrate c p cos z

end WACDM

/-! ## The closed forms with partial float operations

In Go a division by zero, the square root of a negative number and a negative
base under a non-integer power do not produce a real number (`NaN` or an
infinity).  The definitions below follow the same source lines as the total
ones above, with these operations returning `none` there. -/

/-- Float division: `none` when the divisor is zero. -/
noncomputable def divChecked (a b : ℝ) : Option ℝ :=
  if b = 0 then none else some (a / b)

/-- The function `math.Sqrt`: `none` for a negative argument. -/
noncomputable def sqrtChecked (a : ℝ) : Option ℝ :=
  if a < 0 then none else some (Real.sqrt a)

/-- The function `math.Pow` at the negative, non-integer exponents of `util.go`
(`-3./2`): `none` for a base that is negative or zero. -/
noncomputable def powChecked (a y : ℝ) : Option ℝ :=
  if a ≤ 0 then none else some (a ^ y)

/-- The function `hubbleTime` of `util.go`, with partial operations. -/
noncomputable def hubbleTimeChecked (c : Consts) (H0 : ℝ) : Option ℝ := do
  let inv ← divChecked 1 H0
  divChecked (inv * c.kmInAMpc) c.secInAGyr

/-- The function `ageOM` of `util.go`, with partial operations. -/
noncomputable def ageOMChecked (c : Consts) (z Om0 H0 : ℝ) : Option ℝ := do
  let tH ← hubbleTimeChecked c H0
  if Om0 = 1 then
    let pw ← powChecked (1 + z) (-3 / 2)
    some ((2 / 3) * tH * pw)
  else
    let s ← sqrtChecked (1 + Om0 * z)
    let first ← divChecked s ((1 - Om0) * (1 + z))
    let pw ← powChecked (1 - Om0) (-3 / 2)
    let inv ← divChecked 1 Om0
    let q ← divChecked (inv - 1) (1 + z)
    let r ← sqrtChecked q
    some (tH * (first - Om0 * pw * Real.arsinh r))

/-- The function `lookbackTimeOM` of `util.go`, with partial operations. -/
noncomputable def lookbackTimeOMChecked (c : Consts) (z Om0 H0 : ℝ) : Option ℝ := do
  let a0 ← ageOMChecked c 0 Om0 H0
  let az ← ageOMChecked c z Om0 H0
  some (a0 - az)

/-- The function `comovingTransverseDistanceOM` of `util.go`, with partial operations. -/
noncomputable def comovingTransverseDistanceOMChecked (c : Consts) (z Om0 H0 : ℝ) :
    Option ℝ := do
  let dh ← divChecked c.SpeedOfLightKmS H0
  let s ← sqrtChecked (1 + Om0 * z)
  divChecked (dh * 2 * (2 - Om0 * (1 - z) - (2 - Om0) * s)) ((1 + z) * Om0 * Om0)

/-- The function `comovingDistanceOM` of `util.go`, with partial operations. -/
noncomputable def comovingDistanceOMChecked (c : Consts) (z Om0 H0 : ℝ) : Option ℝ := do
  let comovingTransverseDistance ← comovingTransverseDistanceOMChecked c z Om0 H0
  let Ok0 := 1 - Om0
  if Ok0 = 0 then
    some comovingTransverseDistance
  else
    let hubbleDistance ← divChecked c.SpeedOfLightKmS H0
    let sk ← sqrtChecked Ok0
    let hdk ← divChecked hubbleDistance sk
    let q ← divChecked comovingTransverseDistance hdk
    some (hdk * Real.arsinh q)

/-- The function `comovingDistanceOMZ1Z2` of `util.go`, with partial operations. -/
noncomputable def comovingDistanceOMZ1Z2Checked (c : Consts) (z1 z2 Om0 H0 : ℝ) :
    Option ℝ := do
  let d2 ← comovingDistanceOMChecked c z2 Om0 H0
  let d1 ← comovingDistanceOMChecked c z1 Om0 H0
  some (d2 - d1)

/-! ## Sample parameters for concrete instances -/

/-- Sample values of the physical constants. -/
noncomputable def sampleConsts : Consts :=
  ⟨299792.458, 3.08567758149137e19, 3.15576e16⟩

/-- Sample external primitives: every primitive returns zero. -/
noncomputable def samplePrims : Prims :=
  ⟨fun _ _ _ _ => 0, fun _ _ _ => 0, fun _ _ _ => 0, fun _ _ => 0, fun _ _ => 0,
    fun _ _ _ => 0, fun _ _ => 0, fun _ _ => 0⟩

/-! ## Comoving-distance dispatch -/

/-- C1: with `Ol0 = 0`, `ComovingDistanceZ1Z2` of `LambdaCDM` and of `WACDM` is the
matter+curvature closed form `comovingDistanceOM(z2) - comovingDistanceOM(z1)`,
for every value of the other parameters and every external primitive (the
quadrature plays no part in the result). -/
theorem comovingDistanceZ1Z2_of_Ol0_eq_zero (c : Consts) (p : Prims)
    (cosL : LambdaCDM) (cosW : WACDM) (z1 z2 : ℝ)
    (hL : cosL.Ol0 = 0) (hW : cosW.Ol0 = 0) :
    LambdaCDM.ComovingDistanceZ1Z2 c p cosL z1 z2 =
        comovingDistanceOM c z2 cosL.Om0 cosL.H0 - comovingDistanceOM c z1 cosL.Om0 cosL.H0 ∧
      WACDM.ComovingDistanceZ1Z2 c p cosW z1 z2 =
        comovingDistanceOM c z2 cosW.Om0 cosW.H0 - comovingDistanceOM c z1 cosW.Om0 cosW.H0 := by
  constructor
  · have hflat : ¬ (cosL.Ok0 = 0 ∧ cosL.Om0 < 1) := by
      rintro ⟨hk, hm⟩
      simp only [LambdaCDM.Ok0, hL] at hk
      linarith
    simp [LambdaCDM.ComovingDistanceZ1Z2, hflat, hL, comovingDistanceOMZ1Z2]
  · simp [WACDM.ComovingDistanceZ1Z2, hW, comovingDistanceOMZ1Z2]

/-- Instance of C1 at `LambdaCDM{H0: 70, Om0: 0.3, Ol0: 0}` and
`WACDM{H0: 70, Om0: 0.3, Ol0: 0, W0: -0.9, WA: 2}`, between `z1 = 0.5` and `z2 = 2`. -/
theorem comovingDistanceZ1Z2_of_Ol0_eq_zero_witness :
    LambdaCDM.ComovingDistanceZ1Z2 sampleConsts samplePrims ⟨70, 0.3, 0, 0, 0⟩ 0.5 2 =
        comovingDistanceOM sampleConsts 2 0.3 70 - comovingDistanceOM sampleConsts 0.5 0.3 70 ∧
      WACDM.ComovingDistanceZ1Z2 sampleConsts samplePrims ⟨70, 0.3, 0, -0.9, 2, 0, 0⟩ 0.5 2 =
        comovingDistanceOM sampleConsts 2 0.3 70 - comovingDistanceOM sampleConsts 0.5 0.3 70 :=
  comovingDistanceZ1Z2_of_Ol0_eq_zero sampleConsts samplePrims ⟨70, 0.3, 0, 0, 0⟩
    ⟨70, 0.3, 0, -0.9, 2, 0, 0⟩ 0.5 2 rfl rfl

/-- C2: a `LambdaCDM` with `Ok0() = 0` and `Om0 < 1` returns, for
`ComovingDistanceZ1Z2`, `Age` and `LookbackTime`, exactly what
`FlatLCDM{H0: H0, Om0: Om0}` returns. -/
theorem lambdaCDM_flat_delegates (c : Consts) (p : Prims) (cos : LambdaCDM) (z z1 z2 : ℝ)
    (hk : cos.Ok0 = 0) (hm : cos.Om0 < 1) :
    LambdaCDM.ComovingDistanceZ1Z2 c p cos z1 z2 =
        p.flatComovingDistanceZ1Z2 ⟨cos.H0, cos.Om0⟩ z1 z2 ∧
      LambdaCDM.Age c p cos z = p.flatAge ⟨cos.H0, cos.Om0⟩ z ∧
      LambdaCDM.LookbackTime c p cos z = p.flatLookbackTime ⟨cos.H0, cos.Om0⟩ z := by
  have h : cos.Ok0 = 0 ∧ cos.Om0 < 1 := ⟨hk, hm⟩
  refine ⟨?_, ?_, ?_⟩
  · simp only [LambdaCDM.ComovingDistanceZ1Z2, if_pos h]
  · simp only [LambdaCDM.Age, if_pos h]
  · simp only [LambdaCDM.LookbackTime, if_pos h]

/-- Instance of C2 at `LambdaCDM{H0: 70, Om0: 0.3, Ol0: 0.7}`. -/
theorem lambdaCDM_flat_delegates_witness :
    LambdaCDM.ComovingDistanceZ1Z2 sampleConsts samplePrims ⟨70, 0.3, 0.7, 0, 0⟩ 0 1 =
        samplePrims.flatComovingDistanceZ1Z2 ⟨70, 0.3⟩ 0 1 ∧
      LambdaCDM.Age sampleConsts samplePrims ⟨70, 0.3, 0.7, 0, 0⟩ 0.5 =
        samplePrims.flatAge ⟨70, 0.3⟩ 0.5 ∧
      LambdaCDM.LookbackTime sampleConsts samplePrims ⟨70, 0.3, 0.7, 0, 0⟩ 0.5 =
        samplePrims.flatLookbackTime ⟨70, 0.3⟩ 0.5 :=
  lambdaCDM_flat_delegates sampleConsts samplePrims ⟨70, 0.3, 0.7, 0, 0⟩ 0.5 0 1
    (by norm_num [LambdaCDM.Ok0]) (by norm_num)

/-- C3: a `LambdaCDM` with `Ol0 ≠ 0` outside the flat case (`Ok0() = 0` and
`Om0 < 1`), and a `WACDM` with `Ol0 ≠ 0` and `WA ≠ 0`, compute
`ComovingDistanceZ1Z2(z1, z2)` as `HubbleDistance()` times the 1000-point
fixed quadrature of `Einv` over `[z1, z2]`. -/
theorem comovingDistanceZ1Z2_quadrature (c : Consts) (p : Prims)
    (cosL : LambdaCDM) (cosW : WACDM) (z1 z2 : ℝ)
    (hL : cosL.Ol0 ≠ 0) (hflat : ¬ (cosL.Ok0 = 0 ∧ cosL.Om0 < 1))
    (hW : cosW.Ol0 ≠ 0) (hWA : cosW.WA ≠ 0) :
    LambdaCDM.ComovingDistanceZ1Z2 c p cosL z1 z2 =
        LambdaCDM.HubbleDistance c cosL * p.quadFixed cosL.Einv (z1 : EReal) (z2 : EReal) 1000 ∧
      WACDM.ComovingDistanceZ1Z2 c p cosW z1 z2 =
        WACDM.HubbleDistance c cosW * p.quadFixed cosW.Einv (z1 : EReal) (z2 : EReal) 1000 := by
  constructor
  · simp only [LambdaCDM.ComovingDistanceZ1Z2, if_neg hflat, if_neg hL,
      LambdaCDM.comovingDistanceZ1Z2Integrate]
  · simp only [WACDM.ComovingDistanceZ1Z2, if_neg hW, if_neg hWA,
      WACDM.comovingDistanceZ1Z2Integrate]

/-- Instance of C3 at `LambdaCDM{H0: 70, Om0: 0.3, Ol0: 0.6}` and
`WACDM{H0: 70, Om0: 0.3, Ol0: 0.7, W0: -0.9, WA: 2}`. -/
theorem comovingDistanceZ1Z2_quadrature_witness :
    LambdaCDM.ComovingDistanceZ1Z2 sampleConsts samplePrims ⟨70, 0.3, 0.6, 0, 0⟩ 0 1 =
        LambdaCDM.HubbleDistance sampleConsts ⟨70, 0.3, 0.6, 0, 0⟩ *
          samplePrims.quadFixed (LambdaCDM.Einv ⟨70, 0.3, 0.6, 0, 0⟩)
            ((0 : ℝ) : EReal) ((1 : ℝ) : EReal) 1000 ∧
      WACDM.ComovingDistanceZ1Z2 sampleConsts samplePrims ⟨70, 0.3, 0.7, -0.9, 2, 0, 0⟩ 0 1 =
        WACDM.HubbleDistance sampleConsts ⟨70, 0.3, 0.7, -0.9, 2, 0, 0⟩ *
          samplePrims.quadFixed (WACDM.Einv ⟨70, 0.3, 0.7, -0.9, 2, 0, 0⟩)
            ((0 : ℝ) : EReal) ((1 : ℝ) : EReal) 1000 :=
  comovingDistanceZ1Z2_quadrature sampleConsts samplePrims ⟨70, 0.3, 0.6, 0, 0⟩
    ⟨70, 0.3, 0.7, -0.9, 2, 0, 0⟩ 0 1
    (by norm_num) (by norm_num [LambdaCDM.Ok0]) (by norm_num) (by norm_num)

/-! ## Einstein–de Sitter closed form -/

/-- Mattig's formula at `Om0 = 1`: `2 * (c/H0) * (1 - 1/sqrt(1+z))` for `z > -1`. -/
theorem comovingDistanceOM_one (c : Consts) (H0 z : ℝ) (hz : -1 < z) :
    comovingDistanceOM c z 1 H0 = 2 * (c.SpeedOfLightKmS / H0) * (1 - 1 / Real.sqrt (1 + z)) := by
  have hpos : 0 < 1 + z := by linarith
  have hs : 0 < Real.sqrt (1 + z) := Real.sqrt_pos.mpr hpos
  have hsq : Real.sqrt (1 + z) * Real.sqrt (1 + z) = 1 + z := Real.mul_self_sqrt hpos.le
  have key : (2 - 1 * (1 - z) - (2 - 1) * Real.sqrt (1 + 1 * z)) / ((1 + z) * 1 * 1) =
      1 - 1 / Real.sqrt (1 + z) := by
    rw [one_mul, one_mul, mul_one, mul_one, div_eq_iff hpos.ne']
    field_simp
    nlinarith [hsq]
  simp only [comovingDistanceOM, comovingTransverseDistanceOM, sub_self, if_true]
  rw [mul_div_assoc, key]
  ring

/-- The matter-only closed form vanishes at `z = 0` when `Om0 = 1`. -/
theorem comovingDistanceOM_one_zero (c : Consts) (H0 : ℝ) :
    comovingDistanceOM c 0 1 H0 = 0 := by
  simp [comovingDistanceOM, comovingTransverseDistanceOM]

/-- C4: Einstein–de Sitter closed form.  For `H0 > 0` and `z > -1`,
`LambdaCDM{H0, Om0: 1, Ol0: 0}.ComovingDistance(z)` and
`WACDM{H0, Om0: 1, Ol0: 0, W0, WA}.ComovingDistance(z)` both equal
`2 * HubbleDistance() * (1 - 1/sqrt(1+z))`. -/
theorem einstein_de_sitter_comovingDistance (c : Consts) (p : Prims) (H0 W0 WA z : ℝ)
    (hH : 0 < H0) (hz : -1 < z) :
    LambdaCDM.ComovingDistance c p ⟨H0, 1, 0, 0, 0⟩ z =
        2 * LambdaCDM.HubbleDistance c ⟨H0, 1, 0, 0, 0⟩ * (1 - 1 / Real.sqrt (1 + z)) ∧
      WACDM.ComovingDistance c p ⟨H0, 1, 0, W0, WA, 0, 0⟩ z =
        2 * WACDM.HubbleDistance c ⟨H0, 1, 0, W0, WA, 0, 0⟩ * (1 - 1 / Real.sqrt (1 + z)) := by
  have _hH := hH
  constructor
  · have hflat : ¬ (LambdaCDM.Ok0 ⟨H0, 1, 0, 0, 0⟩ = 0 ∧ (1 : ℝ) < 1) := by
      rintro ⟨-, h⟩
      exact lt_irrefl _ h
    simp only [LambdaCDM.ComovingDistance, LambdaCDM.ComovingDistanceZ1Z2, if_neg hflat, if_true,
      comovingDistanceOMZ1Z2, comovingDistanceOM_one c H0 z hz, comovingDistanceOM_one_zero,
      LambdaCDM.HubbleDistance, hubbleDistance, sub_zero]
  · simp only [WACDM.ComovingDistance, WACDM.ComovingDistanceZ1Z2, if_true,
      comovingDistanceOMZ1Z2, comovingDistanceOM_one c H0 z hz, comovingDistanceOM_one_zero,
      WACDM.HubbleDistance, hubbleDistance, sub_zero]

/-- Instance of C4 at `H0 = 70`, `z = 3` (and `W0 = -0.9`, `WA = 2`), where
`sqrt(1+z) = 2`. -/
theorem einstein_de_sitter_comovingDistance_witness :
    LambdaCDM.ComovingDistance sampleConsts samplePrims ⟨70, 1, 0, 0, 0⟩ 3 =
        2 * LambdaCDM.HubbleDistance sampleConsts ⟨70, 1, 0, 0, 0⟩ *
          (1 - 1 / Real.sqrt (1 + 3)) ∧
      WACDM.ComovingDistance sampleConsts samplePrims ⟨70, 1, 0, -0.9, 2, 0, 0⟩ 3 =
        2 * WACDM.HubbleDistance sampleConsts ⟨70, 1, 0, -0.9, 2, 0, 0⟩ *
          (1 - 1 / Real.sqrt (1 + 3)) :=
  einstein_de_sitter_comovingDistance sampleConsts samplePrims 70 (-0.9) 2 3
    (by norm_num) (by norm_num)

/-! ## Curvature transform -/

/-- C5: the curvature transform is the identity when flat.  For an `FLRW`
model with `Ok0() = 0`, `comovingTransverseDistanceZ1Z2(cos, z1, z2)` is
`cos.ComovingDistanceZ1Z2(z1, z2)`; for a `LambdaCDM` and a `WACDM` with
`Ok0() = 0`, `ComovingTransverseDistance(z) = ComovingDistance(z)`. -/
theorem comovingTransverseDistance_flat (c : Consts) (p : Prims) (cos : FLRW)
    (cosL : LambdaCDM) (cosW : WACDM) (z z1 z2 : ℝ)
    (hk : cos.Ok0 = 0) (hL : cosL.Ok0 = 0) (hW : cosW.Ok0 = 0) :
    comovingTransverseDistanceZ1Z2 cos z1 z2 = cos.ComovingDistanceZ1Z2 z1 z2 ∧
      LambdaCDM.ComovingTransverseDistance c p cosL z = LambdaCDM.ComovingDistance c p cosL z ∧
      WACDM.ComovingTransverseDistance c p cosW z = WACDM.ComovingDistance c p cosW z := by
  refine ⟨?_, ?_, ?_⟩
  · simp only [comovingTransverseDistanceZ1Z2, if_pos hk]
  · simp only [LambdaCDM.ComovingTransverseDistance, LambdaCDM.ComovingTransverseDistanceZ1Z2,
      comovingTransverseDistanceZ1Z2, LambdaCDM.toFLRW, if_pos hL, LambdaCDM.ComovingDistance]
  · simp only [WACDM.ComovingTransverseDistance, WACDM.ComovingTransverseDistanceZ1Z2,
      comovingTransverseDistanceZ1Z2, WACDM.toFLRW, if_pos hW, WACDM.ComovingDistance]

/-- Instance of C5 at `LambdaCDM{H0: 70, Om0: 0.3, Ol0: 0.7}`, seen directly and
through the `FLRW` interface, and `WACDM{H0: 70, Om0: 0.3, Ol0: 0.7, W0: -0.9, WA: 2}`. -/
theorem comovingTransverseDistance_flat_witness :
    comovingTransverseDistanceZ1Z2
        (LambdaCDM.toFLRW sampleConsts samplePrims ⟨70, 0.3, 0.7, 0, 0⟩) 0.5 2 =
        (LambdaCDM.toFLRW sampleConsts samplePrims ⟨70, 0.3, 0.7, 0, 0⟩).ComovingDistanceZ1Z2
          0.5 2 ∧
      LambdaCDM.ComovingTransverseDistance sampleConsts samplePrims ⟨70, 0.3, 0.7, 0, 0⟩ 1 =
        LambdaCDM.ComovingDistance sampleConsts samplePrims ⟨70, 0.3, 0.7, 0, 0⟩ 1 ∧
      WACDM.ComovingTransverseDistance sampleConsts samplePrims ⟨70, 0.3, 0.7, -0.9, 2, 0, 0⟩ 1 =
        WACDM.ComovingDistance sampleConsts samplePrims ⟨70, 0.3, 0.7, -0.9, 2, 0, 0⟩ 1 :=
  comovingTransverseDistance_flat sampleConsts samplePrims
    (LambdaCDM.toFLRW sampleConsts samplePrims ⟨70, 0.3, 0.7, 0, 0⟩)
    ⟨70, 0.3, 0.7, 0, 0⟩ ⟨70, 0.3, 0.7, -0.9, 2, 0, 0⟩ 1 0.5 2
    (by norm_num [LambdaCDM.toFLRW, LambdaCDM.Ok0]) (by norm_num [LambdaCDM.Ok0])
    (by norm_num [WACDM.Ok0])

/-- C7: open geometry.  For an `FLRW` model with `Ok0() > 0`,
`comovingTransverseDistanceZ1Z2(cos, z1, z2) = Dh/sqrt(Ok0) * sinh(sqrt(Ok0) * Dc / Dh)`
with `Dh = HubbleDistance()` and `Dc = ComovingDistanceZ1Z2(z1, z2)`. -/
theorem comovingTransverseDistance_open (cos : FLRW) (z1 z2 : ℝ) (hk : 0 < cos.Ok0) :
    comovingTransverseDistanceZ1Z2 cos z1 z2 =
      cos.HubbleDistance / Real.sqrt cos.Ok0 *
        Real.sinh (Real.sqrt cos.Ok0 * cos.ComovingDistanceZ1Z2 z1 z2 / cos.HubbleDistance) := by
  simp only [comovingTransverseDistanceZ1Z2, if_neg hk.ne', gt_iff_lt, if_pos hk]

/-- Instance of C7 at `LambdaCDM{H0: 70, Om0: 0.3, Ol0: 0.6}`, whose `Ok0()` is `0.1`. -/
theorem comovingTransverseDistance_open_witness :
    comovingTransverseDistanceZ1Z2
        (LambdaCDM.toFLRW sampleConsts samplePrims ⟨70, 0.3, 0.6, 0, 0⟩) 0 1 =
      (LambdaCDM.toFLRW sampleConsts samplePrims ⟨70, 0.3, 0.6, 0, 0⟩).HubbleDistance /
          Real.sqrt (LambdaCDM.toFLRW sampleConsts samplePrims ⟨70, 0.3, 0.6, 0, 0⟩).Ok0 *
        Real.sinh (Real.sqrt (LambdaCDM.toFLRW sampleConsts samplePrims ⟨70, 0.3, 0.6, 0, 0⟩).Ok0 *
          (LambdaCDM.toFLRW sampleConsts samplePrims ⟨70, 0.3, 0.6, 0, 0⟩).ComovingDistanceZ1Z2 0 1 /
          (LambdaCDM.toFLRW sampleConsts samplePrims ⟨70, 0.3, 0.6, 0, 0⟩).HubbleDistance) :=
  comovingTransverseDistance_open
    (LambdaCDM.toFLRW sampleConsts samplePrims ⟨70, 0.3, 0.6, 0, 0⟩) 0 1
    (by norm_num [LambdaCDM.toFLRW, LambdaCDM.Ok0])

/-- The principal square root of a negative real `x` is `sqrt(-x) * i`. -/
theorem csqrt_ofReal_of_neg (x : ℝ) (hx : x < 0) :
    csqrt (x : ℂ) = (Real.sqrt (-x) : ℂ) * Complex.I := by
  have hnx : (0 : ℝ) ≤ -x := by linarith
  have h1 : ((-x : ℝ) : ℂ) ^ (1 / 2 : ℂ) = (Real.sqrt (-x) : ℂ) := by
    rw [Real.sqrt_eq_rpow, Complex.ofReal_cpow hnx]
    norm_num
  have h2 : Complex.exp (Real.pi * Complex.I * (1 / 2 : ℂ)) = Complex.I := by
    rw [show (Real.pi : ℂ) * Complex.I * (1 / 2 : ℂ) = (Real.pi : ℂ) / 2 * Complex.I by ring]
    rw [Complex.exp_mul_I, Complex.cos_pi_div_two, Complex.sin_pi_div_two]
    ring
  unfold csqrt
  rw [Complex.ofReal_cpow_of_nonpos hx.le, h2, ← Complex.ofReal_neg, h1]

/-- The complex expression of the closed branch is the real number given by the
spherical formula. -/
theorem closedAnswer_eq_ofReal (Dh Ok0 Dc : ℝ) (hk : Ok0 < 0) :
    closedAnswer Dh Ok0 Dc =
      ((Dh / Real.sqrt (-Ok0) * Real.sin (Real.sqrt (-Ok0) * Dc / Dh) : ℝ) : ℂ) := by
  have hs : 0 < Real.sqrt (-Ok0) := Real.sqrt_pos.mpr (by linarith)
  have hsC : (Real.sqrt (-Ok0) : ℂ) ≠ 0 := Complex.ofReal_ne_zero.mpr hs.ne'
  have harg : (Real.sqrt (-Ok0) : ℂ) * Complex.I * (Dc : ℂ) / (Dh : ℂ) =
      ((Real.sqrt (-Ok0) * Dc / Dh : ℝ) : ℂ) * Complex.I := by
    push_cast
    ring
  unfold closedAnswer
  rw [csqrt_ofReal_of_neg Ok0 hk, harg, Complex.sinh_mul_I, ← Complex.ofReal_sin]
  push_cast
  field_simp [Complex.I_ne_zero]
  ring

/-- C6: closed geometry.  For an `FLRW` model with `Ok0() < 0` and
`HubbleDistance() > 0`, `comovingTransverseDistanceZ1Z2` (the real part of
`Dh/csqrt(Ok0) * csinh(csqrt(Ok0) * Dc / Dh)`) equals the spherical formula
`Dh/sqrt(-Ok0) * sin(sqrt(-Ok0) * Dc / Dh)` with `Dc = ComovingDistanceZ1Z2(z1, z2)`,
and the imaginary part of the complex expression is zero. -/
theorem comovingTransverseDistance_closed (cos : FLRW) (z1 z2 : ℝ)
    (hk : cos.Ok0 < 0) (hD : 0 < cos.HubbleDistance) :
    comovingTransverseDistanceZ1Z2 cos z1 z2 =
        (closedAnswer cos.HubbleDistance cos.Ok0 (cos.ComovingDistanceZ1Z2 z1 z2)).re ∧
      comovingTransverseDistanceZ1Z2 cos z1 z2 =
        cos.HubbleDistance / Real.sqrt (-cos.Ok0) *
          Real.sin (Real.sqrt (-cos.Ok0) * cos.ComovingDistanceZ1Z2 z1 z2 / cos.HubbleDistance) ∧
      (closedAnswer cos.HubbleDistance cos.Ok0 (cos.ComovingDistanceZ1Z2 z1 z2)).im = 0 := by
  have _hD := hD
  have hcode : comovingTransverseDistanceZ1Z2 cos z1 z2 =
      (closedAnswer cos.HubbleDistance cos.Ok0 (cos.ComovingDistanceZ1Z2 z1 z2)).re := by
    simp only [comovingTransverseDistanceZ1Z2, if_neg hk.ne, gt_iff_lt, if_neg (not_lt.mpr hk.le),
      if_pos hk]
  refine ⟨hcode, ?_, ?_⟩
  · rw [hcode, closedAnswer_eq_ofReal _ _ _ hk, Complex.ofReal_re]
  · rw [closedAnswer_eq_ofReal _ _ _ hk, Complex.ofReal_im]

/-- Instance of C6 at `LambdaCDM{H0: 70, Om0: 0.3, Ol0: 0.9}`, whose `Ok0()` is `-0.2`. -/
theorem comovingTransverseDistance_closed_witness :
    comovingTransverseDistanceZ1Z2
        (LambdaCDM.toFLRW sampleConsts samplePrims ⟨70, 0.3, 0.9, 0, 0⟩) 0 1 =
        (closedAnswer (LambdaCDM.toFLRW sampleConsts samplePrims ⟨70, 0.3, 0.9, 0, 0⟩).HubbleDistance
          (LambdaCDM.toFLRW sampleConsts samplePrims ⟨70, 0.3, 0.9, 0, 0⟩).Ok0
          ((LambdaCDM.toFLRW sampleConsts samplePrims ⟨70, 0.3, 0.9, 0, 0⟩).ComovingDistanceZ1Z2
            0 1)).re ∧
      comovingTransverseDistanceZ1Z2
        (LambdaCDM.toFLRW sampleConsts samplePrims ⟨70, 0.3, 0.9, 0, 0⟩) 0 1 =
        (LambdaCDM.toFLRW sampleConsts samplePrims ⟨70, 0.3, 0.9, 0, 0⟩).HubbleDistance /
            Real.sqrt (-(LambdaCDM.toFLRW sampleConsts samplePrims ⟨70, 0.3, 0.9, 0, 0⟩).Ok0) *
          Real.sin
            (Real.sqrt (-(LambdaCDM.toFLRW sampleConsts samplePrims ⟨70, 0.3, 0.9, 0, 0⟩).Ok0) *
              (LambdaCDM.toFLRW sampleConsts samplePrims ⟨70, 0.3, 0.9, 0, 0⟩).ComovingDistanceZ1Z2
                0 1 /
              (LambdaCDM.toFLRW sampleConsts samplePrims ⟨70, 0.3, 0.9, 0, 0⟩).HubbleDistance) ∧
      (closedAnswer (LambdaCDM.toFLRW sampleConsts samplePrims ⟨70, 0.3, 0.9, 0, 0⟩).HubbleDistance
          (LambdaCDM.toFLRW sampleConsts samplePrims ⟨70, 0.3, 0.9, 0, 0⟩).Ok0
          ((LambdaCDM.toFLRW sampleConsts samplePrims ⟨70, 0.3, 0.9, 0, 0⟩).ComovingDistanceZ1Z2
            0 1)).im = 0 :=
  comovingTransverseDistance_closed
    (LambdaCDM.toFLRW sampleConsts samplePrims ⟨70, 0.3, 0.9, 0, 0⟩) 0 1
    (by norm_num [LambdaCDM.toFLRW, LambdaCDM.Ok0])
    (by norm_num [LambdaCDM.toFLRW, LambdaCDM.HubbleDistance, hubbleDistance, sampleConsts])

/-! ## The expansion rate `E` and its reciprocal -/

/-- C8: `E(z)` is the square root of the sum of density terms.  For `LambdaCDM`
the nested expression of the code equals
`sqrt((Ogamma0+Onu0)*(1+z)^4 + Om0*(1+z)^3 + Ok0()*(1+z)^2 + Ol0)`; for `WACDM`
with `WA ≠ 0` the dark-energy term is
`Ol0*(1+z)^(3*(1+W0+WA))*exp(-3*WA*z/(1+z))`. -/
theorem E_eq_sqrt_sum (cosL : LambdaCDM) (cosW : WACDM) (z : ℝ) (hWA : cosW.WA ≠ 0) :
    cosL.E z =
        Real.sqrt ((cosL.Ogamma0 + cosL.Onu0) * (1 + z) ^ 4 + cosL.Om0 * (1 + z) ^ 3 +
          cosL.Ok0 * (1 + z) ^ 2 + cosL.Ol0) ∧
      cosW.E z =
        Real.sqrt ((cosW.Ogamma0 + cosW.Onu0) * (1 + z) ^ 4 + cosW.Om0 * (1 + z) ^ 3 +
          cosW.Ok0 * (1 + z) ^ 2 +
          cosW.Ol0 * (1 + z) ^ (3 * (1 + cosW.W0 + cosW.WA)) *
            Real.exp (-3 * cosW.WA * z / (1 + z))) := by
  constructor
  · simp only [LambdaCDM.E, LambdaCDM.Ok0]
    congr 1
    ring
  · have h1 : ¬ (cosW.W0 = -1 ∧ cosW.WA = 0) := fun h => hWA h.2
    simp only [WACDM.E, WACDM.Ok0, WACDM.deScale, if_neg h1, if_neg hWA]
    congr 1
    ring

/-- Instance of C8 at `LambdaCDM{H0: 70, Om0: 0.27, Ol0: 0.73}` and
`WACDM{H0: 70, Om0: 0.3, Ol0: 0.7, W0: -0.9, WA: 2}`, at `z = 1`. -/
theorem E_eq_sqrt_sum_witness :
    LambdaCDM.E ⟨70, 0.27, 0.73, 0, 0⟩ 1 =
        Real.sqrt (((0 : ℝ) + 0) * (1 + 1) ^ 4 + 0.27 * (1 + 1) ^ 3 +
          LambdaCDM.Ok0 ⟨70, 0.27, 0.73, 0, 0⟩ * (1 + 1) ^ 2 + 0.73) ∧
      WACDM.E ⟨70, 0.3, 0.7, -0.9, 2, 0, 0⟩ 1 =
        Real.sqrt (((0 : ℝ) + 0) * (1 + 1) ^ 4 + 0.3 * (1 + 1) ^ 3 +
          WACDM.Ok0 ⟨70, 0.3, 0.7, -0.9, 2, 0, 0⟩ * (1 + 1) ^ 2 +
          0.7 * (1 + 1) ^ (3 * (1 + (-0.9 : ℝ) + 2)) * Real.exp (-3 * 2 * 1 / (1 + 1))) :=
  E_eq_sqrt_sum ⟨70, 0.27, 0.73, 0, 0⟩ ⟨70, 0.3, 0.7, -0.9, 2, 0, 0⟩ 1 (by norm_num)

/-- C9: reciprocal identity.  For `LambdaCDM` and `WACDM`, `Einv(z) = 1 / E(z)`,
and `Einv(z) * E(z) = 1` whenever `E(z) ≠ 0`. -/
theorem Einv_reciprocal (cosL : LambdaCDM) (cosW : WACDM) (z : ℝ) :
    (cosL.Einv z = 1 / cosL.E z ∧ (cosL.E z ≠ 0 → cosL.Einv z * cosL.E z = 1)) ∧
      (cosW.Einv z = 1 / cosW.E z ∧ (cosW.E z ≠ 0 → cosW.Einv z * cosW.E z = 1)) := by
  refine ⟨⟨rfl, fun h => ?_⟩, ⟨rfl, fun h => ?_⟩⟩
  · simp only [LambdaCDM.Einv]
    exact one_div_mul_cancel h
  · simp only [WACDM.Einv]
    exact one_div_mul_cancel h

/-- At `LambdaCDM{H0: 70, Om0: 0.27, Ol0: 0.73}` and `z = 1` the radicand of `E` is
`1.7 * 1.7`. -/
theorem E_sample_radicand :
    (1 + (1 : ℝ)) * (1 + 1) * ((((0 : ℝ) + 0) * (1 + 1) + 0.27) * (1 + 1) +
      (1 - (0.27 + 0.73))) + 0.73 * 1 = 1.7 * 1.7 := by
  norm_num

/-- The value `E(1) = 1.7` at `LambdaCDM{H0: 70, Om0: 0.27, Ol0: 0.73}`. -/
theorem E_sample_value : LambdaCDM.E ⟨70, 0.27, 0.73, 0, 0⟩ 1 = 1.7 := by
  simp only [LambdaCDM.E]
  rw [E_sample_radicand]
  exact Real.sqrt_mul_self (by norm_num)

/-- Instance of C9 at `LambdaCDM{H0: 70, Om0: 0.27, Ol0: 0.73}` and at the `WACDM`
with the same densities and `W0 = -1`, `WA = 0`, at `z = 1`, where `E = 1.7 ≠ 0`:
the product `Einv(1) * E(1)` is `1`. -/
theorem Einv_reciprocal_witness :
    LambdaCDM.Einv ⟨70, 0.27, 0.73, 0, 0⟩ 1 * LambdaCDM.E ⟨70, 0.27, 0.73, 0, 0⟩ 1 = 1 ∧
      WACDM.Einv ⟨70, 0.27, 0.73, -1, 0, 0, 0⟩ 1 * WACDM.E ⟨70, 0.27, 0.73, -1, 0, 0, 0⟩ 1 = 1 := by
  have hL : LambdaCDM.E ⟨70, 0.27, 0.73, 0, 0⟩ 1 ≠ 0 := by
    rw [E_sample_value]
    norm_num
  have hW : WACDM.E ⟨70, 0.27, 0.73, -1, 0, 0, 0⟩ 1 ≠ 0 := by
    have hrad : (1 + (1 : ℝ)) * (1 + 1) * (1 + 1) * (1 + 1) * (0 + 0) +
        (1 + 1) * (1 + 1) * (1 + 1) * 0.27 + (1 + 1) * (1 + 1) * (1 - (0.27 + 0.73)) +
        0.73 * 1 = 1.7 * 1.7 := by norm_num
    simp only [WACDM.E, WACDM.deScale, and_self, if_true]
    rw [hrad, Real.sqrt_mul_self (by norm_num)]
    norm_num
  have h := Einv_reciprocal ⟨70, 0.27, 0.73, 0, 0⟩ ⟨70, 0.27, 0.73, -1, 0, 0, 0⟩ 1
  exact ⟨h.1.2 hL, h.2.2 hW⟩

/-- C10: concrete scenario.  `LambdaCDM{H0: 70, Om0: 0.27, Ol0: 0.73}` with
`Ogamma0 = Onu0 = 0` has `E(1) = 1.7` and `Einv(1) = 1/1.7`, the radicand
`0.27*(1+1)^3 + Ok0()*(1+1)^2 + 0.73` being exactly `2.89`. -/
theorem lambdaCDM_E_at_one :
    LambdaCDM.E ⟨70, 0.27, 0.73, 0, 0⟩ 1 = 1.7 ∧
      LambdaCDM.Einv ⟨70, 0.27, 0.73, 0, 0⟩ 1 = 1 / 1.7 ∧
      LambdaCDM.E ⟨70, 0.27, 0.73, 0, 0⟩ 1 = Real.sqrt 2.89 ∧
      ((0 : ℝ) + 0) * (1 + 1) ^ 4 + 0.27 * (1 + 1) ^ 3 +
        LambdaCDM.Ok0 ⟨70, 0.27, 0.73, 0, 0⟩ * (1 + 1) ^ 2 + 0.73 = 2.89 := by
  have hrad : (1 + (1 : ℝ)) * (1 + 1) * ((((0 : ℝ) + 0) * (1 + 1) + 0.27) * (1 + 1) +
      (1 - (0.27 + 0.73))) + 0.73 * 1 = 2.89 := by norm_num
  have hsq : Real.sqrt 2.89 = 1.7 := by
    rw [show (2.89 : ℝ) = 1.7 * 1.7 by norm_num]
    exact Real.sqrt_mul_self (by norm_num)
  have hE : LambdaCDM.E ⟨70, 0.27, 0.73, 0, 0⟩ 1 = Real.sqrt 2.89 := by
    simp only [LambdaCDM.E]
    rw [hrad]
  refine ⟨hE.trans hsq, ?_, hE, ?_⟩
  · simp only [LambdaCDM.Einv]
    rw [hE, hsq]
  · norm_num [LambdaCDM.Ok0]

/-! ## The expansion rate today -/

/-- At `z = 0` the radicand of `LambdaCDM.E` is `1 + Ogamma0 + Onu0`: the curvature
term `1 - (Om0 + Ol0)` does not count the radiation densities. -/
theorem lambdaCDM_E_zero (cos : LambdaCDM) :
    cos.E 0 = Real.sqrt (1 + (cos.Ogamma0 + cos.Onu0)) := by
  simp only [LambdaCDM.E]
  congr 1
  ring

/-- At `z = 0` the radicand of `WACDM.E` is `1 + Ogamma0 + Onu0`. -/
theorem waCDM_E_zero (cos : WACDM) :
    cos.E 0 = Real.sqrt (1 + (cos.Ogamma0 + cos.Onu0)) := by
  have hde : WACDM.deScale cos 0 = 1 := by
    unfold WACDM.deScale
    split_ifs <;> simp
  simp only [WACDM.E, hde]
  congr 1
  ring

/-- Without radiation (`Ogamma0 + Onu0 = 0`) both models have `E(0) = 1`. -/
theorem E_zero_of_no_radiation (cosL : LambdaCDM) (cosW : WACDM)
    (hL : cosL.Ogamma0 + cosL.Onu0 = 0) (hW : cosW.Ogamma0 + cosW.Onu0 = 0) :
    cosL.E 0 = 1 ∧ cosW.E 0 = 1 := by
  rw [lambdaCDM_E_zero, waCDM_E_zero, hL, hW]
  simp

/-- C11 (the code at the failing input): with radiation the expansion rate today
is not `1`.  `LambdaCDM{H0: 70, Om0: 0.3, Ol0: 0.6, Ogamma0: 0.21}` and
`WACDM{H0: 70, Om0: 0.3, Ol0: 0.6, W0: -0.9, WA: 2, Ogamma0: 0.21}` both have
`E(0) = sqrt(1.21) = 1.1`. -/
theorem E_zero_with_radiation :
    LambdaCDM.E ⟨70, 0.3, 0.6, 0.21, 0⟩ 0 = 1.1 ∧
      WACDM.E ⟨70, 0.3, 0.6, -0.9, 2, 0.21, 0⟩ 0 = 1.1 ∧
      LambdaCDM.E ⟨70, 0.3, 0.6, 0.21, 0⟩ 0 ≠ 1 ∧
      WACDM.E ⟨70, 0.3, 0.6, -0.9, 2, 0.21, 0⟩ 0 ≠ 1 := by
  have hsq : Real.sqrt (1 + ((0.21 : ℝ) + 0)) = 1.1 := by
    rw [show (1 : ℝ) + (0.21 + 0) = 1.1 * 1.1 by norm_num]
    exact Real.sqrt_mul_self (by norm_num)
  have hL : LambdaCDM.E ⟨70, 0.3, 0.6, 0.21, 0⟩ 0 = 1.1 := by
    rw [lambdaCDM_E_zero]
    exact hsq
  have hW : WACDM.E ⟨70, 0.3, 0.6, -0.9, 2, 0.21, 0⟩ 0 = 1.1 := by
    rw [waCDM_E_zero]
    exact hsq
  refine ⟨hL, hW, ?_, ?_⟩
  · rw [hL]
    norm_num
  · rw [hW]
    norm_num

/-! ## Age and look-back-time dispatch -/

/-- C12: dispatch table of `LambdaCDM.Age` and `LambdaCDM.LookbackTime` outside
the flat case (`Ok0() = 0` and `Om0 < 1`): the matter-only closed forms when
`Ol0 = 0`, `0 < Om0`, `Om0 ≠ 1`; the dark-energy-only closed forms when
`Om0 = 0`, `0 < Ol0 < 1`; otherwise `hubbleTime(H0)` times the 1000-point
quadrature, over `[z, +∞)` of the age integrand and over `[0, z]` of
`Einv(z')/(1+z')`. -/
theorem lambdaCDM_age_lookback_dispatch (c : Consts) (p : Prims) (cos : LambdaCDM) (z : ℝ)
    (hflat : ¬ (cos.Ok0 = 0 ∧ cos.Om0 < 1)) :
    (cos.Ol0 = 0 ∧ 0 < cos.Om0 ∧ cos.Om0 ≠ 1 →
        LambdaCDM.Age c p cos z = ageOM c z cos.Om0 cos.H0 ∧
          LambdaCDM.LookbackTime c p cos z = lookbackTimeOM c z cos.Om0 cos.H0) ∧
      (cos.Om0 = 0 ∧ 0 < cos.Ol0 ∧ cos.Ol0 < 1 →
        LambdaCDM.Age c p cos z = ageOL c z cos.Ol0 cos.H0 ∧
          LambdaCDM.LookbackTime c p cos z = lookbackTimeOL c z cos.Ol0 cos.H0) ∧
      (¬ (cos.Ol0 = 0 ∧ 0 < cos.Om0 ∧ cos.Om0 ≠ 1) →
        ¬ (cos.Om0 = 0 ∧ 0 < cos.Ol0 ∧ cos.Ol0 < 1) →
        LambdaCDM.Age c p cos z =
            hubbleTime c cos.H0 *
              p.quadFixed
                (fun t => 1 / ((1 + t) *
                  Real.sqrt ((1 + t) * (1 + t) * (1 + cos.Om0 * t) - t * (2 + t) * cos.Ol0)))
                (z : EReal) ⊤ 1000 ∧
          LambdaCDM.LookbackTime c p cos z =
            hubbleTime c cos.H0 *
              p.quadFixed (fun t => cos.Einv t / (1 + t)) ((0 : ℝ) : EReal) (z : EReal) 1000) := by
  refine ⟨fun hOM => ?_, fun hOL => ?_, fun hOM hOL => ?_⟩
  · simp only [LambdaCDM.Age, LambdaCDM.LookbackTime, if_neg hflat, if_pos hOM, and_self]
  · have hOM : ¬ (cos.Ol0 = 0 ∧ 0 < cos.Om0 ∧ cos.Om0 ≠ 1) := by
      rintro ⟨-, h, -⟩
      rw [hOL.1] at h
      exact lt_irrefl _ h
    simp only [LambdaCDM.Age, LambdaCDM.LookbackTime, if_neg hflat, if_neg hOM, if_pos hOL,
      and_self]
  · simp only [LambdaCDM.Age, LambdaCDM.LookbackTime, if_neg hflat, if_neg hOM, if_neg hOL,
      LambdaCDM.ageIntegrate, LambdaCDM.lookbackTimeIntegrate, EReal.coe_zero]
    exact ⟨rfl, rfl⟩

/-- Instance of C12 at the three regimes: `LambdaCDM{H0: 70, Om0: 0.3, Ol0: 0}`
(matter only), `LambdaCDM{H0: 70, Om0: 0, Ol0: 0.5}` (dark energy only) and
`LambdaCDM{H0: 70, Om0: 0.3, Ol0: 0.6}` (quadrature), at `z = 0.5`. -/
theorem lambdaCDM_age_lookback_dispatch_witness :
    (LambdaCDM.Age sampleConsts samplePrims ⟨70, 0.3, 0, 0, 0⟩ 0.5 =
          ageOM sampleConsts 0.5 0.3 70 ∧
        LambdaCDM.LookbackTime sampleConsts samplePrims ⟨70, 0.3, 0, 0, 0⟩ 0.5 =
          lookbackTimeOM sampleConsts 0.5 0.3 70) ∧
      (LambdaCDM.Age sampleConsts samplePrims ⟨70, 0, 0.5, 0, 0⟩ 0.5 =
          ageOL sampleConsts 0.5 0.5 70 ∧
        LambdaCDM.LookbackTime sampleConsts samplePrims ⟨70, 0, 0.5, 0, 0⟩ 0.5 =
          lookbackTimeOL sampleConsts 0.5 0.5 70) ∧
      (LambdaCDM.Age sampleConsts samplePrims ⟨70, 0.3, 0.6, 0, 0⟩ 0.5 =
          hubbleTime sampleConsts 70 *
            samplePrims.quadFixed
              (fun t => 1 / ((1 + t) *
                Real.sqrt ((1 + t) * (1 + t) * (1 + 0.3 * t) - t * (2 + t) * 0.6)))
              ((0.5 : ℝ) : EReal) ⊤ 1000 ∧
        LambdaCDM.LookbackTime sampleConsts samplePrims ⟨70, 0.3, 0.6, 0, 0⟩ 0.5 =
          hubbleTime sampleConsts 70 *
            samplePrims.quadFixed (fun t => LambdaCDM.Einv ⟨70, 0.3, 0.6, 0, 0⟩ t / (1 + t))
              ((0 : ℝ) : EReal) ((0.5 : ℝ) : EReal) 1000) :=
  ⟨(lambdaCDM_age_lookback_dispatch sampleConsts samplePrims ⟨70, 0.3, 0, 0, 0⟩ 0.5
      (by norm_num [LambdaCDM.Ok0])).1 (by norm_num),
    (lambdaCDM_age_lookback_dispatch sampleConsts samplePrims ⟨70, 0, 0.5, 0, 0⟩ 0.5
      (by norm_num [LambdaCDM.Ok0])).2.1 (by norm_num),
    (lambdaCDM_age_lookback_dispatch sampleConsts samplePrims ⟨70, 0.3, 0.6, 0, 0⟩ 0.5
      (by norm_num [LambdaCDM.Ok0])).2.2 (by norm_num) (by norm_num)⟩

/-- With `Om0 = 1` no closed-form case of `LambdaCDM.Age` fires: the flat case
requires `Om0 < 1`, the matter-only case `Om0 ≠ 1` and the dark-energy-only case
`Om0 = 0`, so `Age` is `ageIntegrate`. -/
theorem lambdaCDM_age_of_Om0_one (c : Consts) (p : Prims) (cos : LambdaCDM) (z : ℝ)
    (hOm : cos.Om0 = 1) :
    LambdaCDM.Age c p cos z = LambdaCDM.ageIntegrate c p cos z := by
  have hflat : ¬ (cos.Ok0 = 0 ∧ cos.Om0 < 1) := fun h => by linarith [h.2]
  have hOM : ¬ (cos.Ol0 = 0 ∧ 0 < cos.Om0 ∧ cos.Om0 ≠ 1) := fun h => h.2.2 hOm
  have hOL : ¬ (cos.Om0 = 0 ∧ 0 < cos.Ol0 ∧ cos.Ol0 < 1) := fun h => by linarith [h.1]
  unfold LambdaCDM.Age
  rw [if_neg hflat, if_neg hOM, if_neg hOL]

/-- C13 (counterexample): `LambdaCDM{H0: 70, Om0: 1, Ol0: 0}.Age(0)` is
`hubbleTime(70)` times the quadrature, so with the sample primitives (whose
quadrature returns zero) it is not `(2/3) * hubbleTime(70) * (1+0)^(-3/2)`. -/
theorem lambdaCDM_age_eds_not_closed_form :
    LambdaCDM.Age sampleConsts samplePrims ⟨70, 1, 0, 0, 0⟩ 0 =
        hubbleTime sampleConsts 70 *
          samplePrims.quadFixed (LambdaCDM.ageIntegrand ⟨70, 1, 0, 0, 0⟩)
            ((0 : ℝ) : EReal) ⊤ 1000 ∧
      LambdaCDM.Age sampleConsts samplePrims ⟨70, 1, 0, 0, 0⟩ 0 ≠
        (2 / 3) * hubbleTime sampleConsts 70 * (1 + 0) ^ (-3 / 2 : ℝ) := by
  have hAge : LambdaCDM.Age sampleConsts samplePrims ⟨70, 1, 0, 0, 0⟩ 0 =
      hubbleTime sampleConsts 70 *
        samplePrims.quadFixed (LambdaCDM.ageIntegrand ⟨70, 1, 0, 0, 0⟩)
          ((0 : ℝ) : EReal) ⊤ 1000 :=
    lambdaCDM_age_of_Om0_one sampleConsts samplePrims ⟨70, 1, 0, 0, 0⟩ 0 rfl
  refine ⟨hAge, ?_⟩
  rw [hAge]
  simp only [samplePrims, mul_zero, add_zero, Real.one_rpow, mul_one]
  norm_num [hubbleTime, sampleConsts]

/-- C13 (amended): `LambdaCDM{H0, Om0: 1, Ol0: 0}.Age(z)` is computed by the
quadrature, `hubbleTime(H0) * quad(integrand, z, +∞, 1000)`, because the
matter-only case of `Age` requires `Om0 ≠ 1`; the power law
`(2/3) * hubbleTime(H0) * (1+z)^(-3/2)` is what `ageOM(z, 1, H0)` returns. -/
theorem lambdaCDM_age_eds_quadrature (c : Consts) (p : Prims) (H0 z : ℝ) :
    LambdaCDM.Age c p ⟨H0, 1, 0, 0, 0⟩ z =
        hubbleTime c H0 *
          p.quadFixed
            (fun t => 1 / ((1 + t) *
              Real.sqrt ((1 + t) * (1 + t) * (1 + 1 * t) - t * (2 + t) * 0)))
            (z : EReal) ⊤ 1000 ∧
      ageOM c z 1 H0 = (2 / 3) * hubbleTime c H0 * (1 + z) ^ (-3 / 2 : ℝ) := by
  constructor
  · rw [lambdaCDM_age_of_Om0_one c p ⟨H0, 1, 0, 0, 0⟩ z rfl]
    rfl
  · simp only [ageOM, if_true]

/-- The integrand of `WACDM.ageIntegrate` is `1/((1+z) * E(z))`. -/
theorem waCDM_ageIntegrand_eq (cos : WACDM) (z : ℝ) :
    WACDM.ageIntegrand cos z = 1 / ((1 + z) * cos.E z) := rfl

/-- Without radiation the integrand of `LambdaCDM.ageIntegrate` is `1/((1+z) * E(z))`. -/
theorem lambdaCDM_ageIntegrand_eq_of_no_radiation (cos : LambdaCDM) (z : ℝ)
    (h : cos.Ogamma0 + cos.Onu0 = 0) :
    LambdaCDM.ageIntegrand cos z = 1 / ((1 + z) * cos.E z) := by
  simp only [LambdaCDM.ageIntegrand, LambdaCDM.E, h]
  congr 3
  ring

/-- C14 (the code at the failing input): at
`LambdaCDM{H0: 70, Om0: 0.3, Ol0: 0.6, Ogamma0: 0.21}` and `z = 1` the integrand of
`ageIntegrate` is `1/(2 * sqrt(3.4))`, its radicand leaving the radiation term
out, while `E(1) = sqrt(6.76) = 2.6` and `1/((1+1) * E(1)) = 1/5.2`. -/
theorem lambdaCDM_ageIntegrand_with_radiation :
    LambdaCDM.ageIntegrand ⟨70, 0.3, 0.6, 0.21, 0⟩ 1 = 1 / (2 * Real.sqrt 3.4) ∧
      LambdaCDM.E ⟨70, 0.3, 0.6, 0.21, 0⟩ 1 = 2.6 ∧
      1 / ((1 + 1) * LambdaCDM.E ⟨70, 0.3, 0.6, 0.21, 0⟩ 1) = 1 / 5.2 ∧
      LambdaCDM.ageIntegrand ⟨70, 0.3, 0.6, 0.21, 0⟩ 1 ≠
        1 / ((1 + 1) * LambdaCDM.E ⟨70, 0.3, 0.6, 0.21, 0⟩ 1) := by
  have hI : LambdaCDM.ageIntegrand ⟨70, 0.3, 0.6, 0.21, 0⟩ 1 = 1 / (2 * Real.sqrt 3.4) := by
    simp only [LambdaCDM.ageIntegrand]
    norm_num
  have hE : LambdaCDM.E ⟨70, 0.3, 0.6, 0.21, 0⟩ 1 = 2.6 := by
    have hrad : (1 + (1 : ℝ)) * (1 + 1) * ((((0.21 : ℝ) + 0) * (1 + 1) + 0.3) * (1 + 1) +
        (1 - (0.3 + 0.6))) + 0.6 * 1 = 2.6 * 2.6 := by norm_num
    simp only [LambdaCDM.E]
    rw [hrad]
    exact Real.sqrt_mul_self (by norm_num)
  have hne : Real.sqrt 3.4 ≠ 2.6 := by
    intro h
    have h2 : Real.sqrt 3.4 * Real.sqrt 3.4 = 3.4 := Real.mul_self_sqrt (by norm_num)
    rw [h] at h2
    norm_num at h2
  refine ⟨hI, hE, ?_, ?_⟩
  · rw [hE]
    norm_num
  · rw [hI, hE]
    intro h
    apply hne
    have hs : (0 : ℝ) < Real.sqrt 3.4 := Real.sqrt_pos.mpr (by norm_num)
    field_simp at h
    linarith

/-- C16: a `WACDM` with `WA = 0` and `Ol0 ≠ 0` returns, for `ComovingDistanceZ1Z2`,
`Age` and `LookbackTime`, exactly what `WCDM{H0, Om0, Ol0, W0}` returns. -/
theorem waCDM_delegates_to_wCDM (c : Consts) (p : Prims) (cos : WACDM) (z z1 z2 : ℝ)
    (hWA : cos.WA = 0) (hOl : cos.Ol0 ≠ 0) :
    WACDM.ComovingDistanceZ1Z2 c p cos z1 z2 =
        p.wcdmComovingDistanceZ1Z2 ⟨cos.H0, cos.Om0, cos.Ol0, cos.W0⟩ z1 z2 ∧
      WACDM.Age c p cos z = p.wcdmAge ⟨cos.H0, cos.Om0, cos.Ol0, cos.W0⟩ z ∧
      WACDM.LookbackTime c p cos z = p.wcdmLookbackTime ⟨cos.H0, cos.Om0, cos.Ol0, cos.W0⟩ z := by
  have hOM : ¬ (cos.Ol0 = 0 ∧ 0 < cos.Om0 ∧ cos.Om0 ≠ 1) := fun h => hOl h.1
  refine ⟨?_, ?_, ?_⟩
  · simp only [WACDM.ComovingDistanceZ1Z2, if_neg hOl, if_pos hWA]
  · simp only [WACDM.Age, if_neg hOM, if_pos hWA]
  · simp only [WACDM.LookbackTime, if_neg hOM, if_pos hWA]

/-- Instance of C16 at `WACDM{H0: 70, Om0: 0.3, Ol0: 0.7, W0: -0.9, WA: 0}`. -/
theorem waCDM_delegates_to_wCDM_witness :
    WACDM.ComovingDistanceZ1Z2 sampleConsts samplePrims ⟨70, 0.3, 0.7, -0.9, 0, 0, 0⟩ 0 1 =
        samplePrims.wcdmComovingDistanceZ1Z2 ⟨70, 0.3, 0.7, -0.9⟩ 0 1 ∧
      WACDM.Age sampleConsts samplePrims ⟨70, 0.3, 0.7, -0.9, 0, 0, 0⟩ 0.5 =
        samplePrims.wcdmAge ⟨70, 0.3, 0.7, -0.9⟩ 0.5 ∧
      WACDM.LookbackTime sampleConsts samplePrims ⟨70, 0.3, 0.7, -0.9, 0, 0, 0⟩ 0.5 =
        samplePrims.wcdmLookbackTime ⟨70, 0.3, 0.7, -0.9⟩ 0.5 :=
  waCDM_delegates_to_wCDM sampleConsts samplePrims ⟨70, 0.3, 0.7, -0.9, 0, 0, 0⟩ 0.5 0 1
    rfl (by norm_num)

/-! ## Matter-only closed forms and the curvature transform -/

/-- Mattig's formula vanishes at `z = 0`. -/
theorem comovingTransverseDistanceOM_zero (c : Consts) (Om0 H0 : ℝ) :
    comovingTransverseDistanceOM c 0 Om0 H0 = 0 := by
  simp [comovingTransverseDistanceOM]

/-- The matter-only radial closed form vanishes at `z = 0`. -/
theorem comovingDistanceOM_zero (c : Consts) (Om0 H0 : ℝ) :
    comovingDistanceOM c 0 Om0 H0 = 0 := by
  simp only [comovingDistanceOM, comovingTransverseDistanceOM_zero]
  split_ifs <;> simp

/-- With `Ol0 = 0`, `LambdaCDM.ComovingDistance(z)` is `comovingDistanceOM(z, Om0, H0)`. -/
theorem lambdaCDM_comovingDistance_matter (c : Consts) (p : Prims) (cos : LambdaCDM) (z : ℝ)
    (hOl : cos.Ol0 = 0) :
    LambdaCDM.ComovingDistance c p cos z = comovingDistanceOM c z cos.Om0 cos.H0 := by
  have hflat : ¬ (cos.Ok0 = 0 ∧ cos.Om0 < 1) := by
    rintro ⟨hk, hm⟩
    simp only [LambdaCDM.Ok0, hOl] at hk
    linarith
  simp only [LambdaCDM.ComovingDistance, LambdaCDM.ComovingDistanceZ1Z2, if_neg hflat, if_pos hOl,
    comovingDistanceOMZ1Z2, comovingDistanceOM_zero, sub_zero]

/-- For positive curvature `k`, the hyperbolic transform undoes the `asinh` of the
radial closed form: `Dh/sqrt(k) * sinh(sqrt(k) * (hdk * asinh(T/hdk)) / Dh) = T` with
`hdk = Dh/sqrt(k)`, provided `T` vanishes when `Dh` does. -/
theorem sinh_transform_arsinh (Dh k T : ℝ) (hk : 0 < k) (hT : Dh = 0 → T = 0) :
    Dh / Real.sqrt k *
        Real.sinh (Real.sqrt k * (Dh / Real.sqrt k * Real.arsinh (T / (Dh / Real.sqrt k))) / Dh) =
      T := by
  have hs : 0 < Real.sqrt k := Real.sqrt_pos.mpr hk
  by_cases hD : Dh = 0
  · rw [hT hD, hD]
    simp
  · have harg : Real.sqrt k * (Dh / Real.sqrt k * Real.arsinh (T / (Dh / Real.sqrt k))) / Dh =
        Real.arsinh (T / (Dh / Real.sqrt k)) := by
      field_simp
    rw [harg, Real.sinh_arsinh]
    field_simp
    ring

/-- C17: open matter-only universe.  For a `LambdaCDM` with `Ol0 = 0`,
`0 < Om0 ≤ 1`, `H0 > 0` and `z ≥ 0`, `ComovingTransverseDistance(z)` is Mattig's
formula `comovingTransverseDistanceOM(z, Om0, H0) =
(c/H0) * 2*(2 - Om0*(1-z) - (2-Om0)*sqrt(1+Om0*z)) / ((1+z)*Om0^2)`: the `sinh` of
the curvature transform undoes the `asinh` of `comovingDistanceOM`. -/
theorem comovingTransverseDistance_open_matter (c : Consts) (p : Prims) (cos : LambdaCDM)
    (z : ℝ) (hOl : cos.Ol0 = 0) (hOm0 : 0 < cos.Om0) (hOm1 : cos.Om0 ≤ 1) (hH : 0 < cos.H0)
    (hz : 0 ≤ z) :
    LambdaCDM.ComovingTransverseDistance c p cos z =
        comovingTransverseDistanceOM c z cos.Om0 cos.H0 ∧
      comovingTransverseDistanceOM c z cos.Om0 cos.H0 =
        (c.SpeedOfLightKmS / cos.H0) * 2 *
            (2 - cos.Om0 * (1 - z) - (2 - cos.Om0) * Real.sqrt (1 + cos.Om0 * z)) /
          ((1 + z) * cos.Om0 ^ 2) := by
  have _h : 0 < cos.Om0 ∧ 0 < cos.H0 ∧ 0 ≤ z := ⟨hOm0, hH, hz⟩
  refine ⟨?_, ?_⟩
  · have hDc := lambdaCDM_comovingDistance_matter c p cos z hOl
    simp only [LambdaCDM.ComovingDistance] at hDc
    have hOk : cos.Ok0 = 1 - cos.Om0 := by simp [LambdaCDM.Ok0, hOl]
    simp only [LambdaCDM.ComovingTransverseDistance, LambdaCDM.ComovingTransverseDistanceZ1Z2,
      comovingTransverseDistanceZ1Z2, LambdaCDM.toFLRW, hDc, hOk, LambdaCDM.HubbleDistance,
      hubbleDistance]
    rcases eq_or_lt_of_le hOm1 with h1 | h1
    · have h0 : (1 : ℝ) - cos.Om0 = 0 := by rw [h1]; ring
      simp only [comovingDistanceOM, h0, if_true]
    · have hk : 0 < 1 - cos.Om0 := by linarith
      rw [if_neg hk.ne', if_pos hk]
      simp only [comovingDistanceOM, if_neg hk.ne']
      apply sinh_transform_arsinh _ _ _ hk
      intro hD
      simp [comovingTransverseDistanceOM, hD]
  · simp only [comovingTransverseDistanceOM]
    ring

/-- Instance of C17 at `LambdaCDM{H0: 70, Om0: 0.3, Ol0: 0}` and `z = 0.5`. -/
theorem comovingTransverseDistance_open_matter_witness :
    LambdaCDM.ComovingTransverseDistance sampleConsts samplePrims ⟨70, 0.3, 0, 0, 0⟩ 0.5 =
        comovingTransverseDistanceOM sampleConsts 0.5 0.3 70 ∧
      comovingTransverseDistanceOM sampleConsts 0.5 0.3 70 =
        (sampleConsts.SpeedOfLightKmS / 70) * 2 *
            (2 - 0.3 * (1 - 0.5) - (2 - 0.3) * Real.sqrt (1 + 0.3 * 0.5)) /
          ((1 + 0.5) * 0.3 ^ 2) :=
  comovingTransverseDistance_open_matter sampleConsts samplePrims ⟨70, 0.3, 0, 0, 0⟩ 0.5
    rfl (by norm_num) (by norm_num) (by norm_num) (by norm_num)

/-- C18 (the code at the failing input): at `LambdaCDM{H0: 70, Om0: 2, Ol0: 0}` the
curvature density `1 - Om0 = -1` that `comovingDistanceOM` hands to `math.Sqrt` is
negative.  In this model the square root of a negative number and a division by
zero evaluate to `0` (in Go the result is `NaN`), so `comovingDistanceOM(1, 2, 70)`
and `ComovingTransverseDistance(1)` evaluate to `0`, not to Mattig's value
`comovingTransverseDistanceOM(1, 2, 70) = (c/70)/2`. -/
theorem comovingDistanceOM_closed_out_of_domain :
    (1 : ℝ) - 2 < 0 ∧
      comovingDistanceOM sampleConsts 1 2 70 = 0 ∧
      LambdaCDM.ComovingTransverseDistance sampleConsts samplePrims ⟨70, 2, 0, 0, 0⟩ 1 = 0 ∧
      comovingTransverseDistanceOM sampleConsts 1 2 70 = 299792.458 / 70 / 2 ∧
      LambdaCDM.ComovingTransverseDistance sampleConsts samplePrims ⟨70, 2, 0, 0, 0⟩ 1 ≠
        comovingTransverseDistanceOM sampleConsts 1 2 70 := by
  have hsq : Real.sqrt ((1 : ℝ) - 2) = 0 := Real.sqrt_eq_zero_of_nonpos (by norm_num)
  have hD : comovingDistanceOM sampleConsts 1 2 70 = 0 := by
    have hne : ¬ ((1 : ℝ) - 2 = 0) := by norm_num
    simp only [comovingDistanceOM, if_neg hne, hsq, div_zero, zero_mul]
  have hT : comovingTransverseDistanceOM sampleConsts 1 2 70 = 299792.458 / 70 / 2 := by
    simp only [comovingTransverseDistanceOM, sampleConsts]
    norm_num
  have hCT : LambdaCDM.ComovingTransverseDistance sampleConsts samplePrims ⟨70, 2, 0, 0, 0⟩ 1 =
      0 := by
    have hDc := lambdaCDM_comovingDistance_matter sampleConsts samplePrims ⟨70, 2, 0, 0, 0⟩ 1 rfl
    simp only [LambdaCDM.ComovingDistance] at hDc
    have hk : LambdaCDM.Ok0 ⟨70, 2, 0, 0, 0⟩ < 0 := by norm_num [LambdaCDM.Ok0]
    simp only [LambdaCDM.ComovingTransverseDistance, LambdaCDM.ComovingTransverseDistanceZ1Z2,
      comovingTransverseDistanceZ1Z2, LambdaCDM.toFLRW, hDc, hD, if_neg hk.ne, gt_iff_lt,
      if_neg (not_lt.mpr hk.le), if_pos hk, closedAnswer]
    simp
  refine ⟨by norm_num, hD, hCT, hT, ?_⟩
  rw [hCT, hT]
  norm_num

/-! ## The matter-only radial closed form as an integral -/

/-- Derivative of Mattig's expression `2*(2 - Om*(1-x) - (2-Om)*sqrt(1+Om*x)) / ((1+x)*Om*Om)`. -/
theorem mattig_hasDerivAt (Om t : ℝ) (hOm : 0 < Om) (hu : 0 < 1 + Om * t) (ht : 0 < 1 + t) :
    HasDerivAt
      (fun x : ℝ => 2 * (2 - Om * (1 - x) - (2 - Om) * Real.sqrt (1 + Om * x)) / ((1 + x) * Om * Om))
      (((2 - Om) * (1 + Om * t) - 4 * (1 - Om) * Real.sqrt (1 + Om * t) + (1 - Om) * (2 - Om)) /
        (Real.sqrt (1 + Om * t) * (Om * (1 + t)) ^ 2)) t := by
  have hs : 0 < Real.sqrt (1 + Om * t) := Real.sqrt_pos.mpr hu
  have hsq : Real.sqrt (1 + Om * t) ^ 2 = 1 + Om * t := Real.sq_sqrt hu.le
  have h1 : HasDerivAt (fun x : ℝ => 1 + Om * x) Om t := by
    simpa using ((hasDerivAt_id t).const_mul Om).const_add 1
  have h2 : HasDerivAt (fun x : ℝ => Real.sqrt (1 + Om * x)) (Om / (2 * Real.sqrt (1 + Om * t))) t :=
    h1.sqrt hu.ne'
  have h3 : HasDerivAt (fun x : ℝ => 2 * (2 - Om * (1 - x) - (2 - Om) * Real.sqrt (1 + Om * x)))
      (2 * (Om - (2 - Om) * (Om / (2 * Real.sqrt (1 + Om * t))))) t := by
    have ha : HasDerivAt (fun x : ℝ => 2 - Om * (1 - x)) Om t := by
      simpa using (((hasDerivAt_id t).const_sub 1).const_mul Om).const_sub 2
    exact ((ha.sub (h2.const_mul (2 - Om))).const_mul 2)
  have h4 : HasDerivAt (fun x : ℝ => (1 + x) * Om * Om) (Om * Om) t := by
    simpa using ((((hasDerivAt_id t).const_add 1).mul_const Om).mul_const Om)
  have hne : (1 + t) * Om * Om ≠ 0 := by positivity
  have h5 := h3.div h4 hne
  convert h5 using 1
  field_simp
  ring_nf
  rw [show Real.sqrt (1 + Om * t) ^ 3 = Real.sqrt (1 + Om * t) ^ 2 * Real.sqrt (1 + Om * t) by ring, hsq]
  ring

/-- The numerator of the derivative of Mattig's expression is positive for `0 < Om < 1`. -/
theorem mattig_poly_pos (Om t : ℝ) (hOm : 0 < Om) (hOm1 : Om < 1) (hu : 0 < 1 + Om * t) :
    0 < (2 - Om) * (1 + Om * t) - 4 * (1 - Om) * Real.sqrt (1 + Om * t) + (1 - Om) * (2 - Om) := by
  have hsq : Real.sqrt (1 + Om * t) ^ 2 = 1 + Om * t := Real.sq_sqrt hu.le
  generalize Real.sqrt (1 + Om * t) = u at hsq ⊢
  have h2 : 0 < 2 - Om := by linarith
  have hk : 0 < 1 - Om := by linarith
  have key : ((2 - Om) * (1 + Om * t) - 4 * (1 - Om) * u + (1 - Om) * (2 - Om)) * (2 - Om) =
      ((2 - Om) * u - 2 * (1 - Om)) ^ 2 + (1 - Om) * Om ^ 2 := by
    linear_combination (-(2 - Om) ^ 2) * hsq
  have hpos : 0 < ((2 - Om) * u - 2 * (1 - Om)) ^ 2 + (1 - Om) * Om ^ 2 := by positivity
  rw [← key] at hpos
  exact (mul_pos_iff_of_pos_right h2).mp hpos

/-- The hyperbolic cosine that goes with Mattig's expression: `sqrt(1 + (1-Om)*tau^2)` in closed form. -/
theorem mattig_cosh (Om t : ℝ) (hOm : 0 < Om) (hOm1 : Om < 1) (hu : 0 < 1 + Om * t)
    (ht : 0 < 1 + t) :
    Real.sqrt (1 + (Real.sqrt (1 - Om) *
        (2 * (2 - Om * (1 - t) - (2 - Om) * Real.sqrt (1 + Om * t)) / ((1 + t) * Om * Om))) ^ 2) =
      ((2 - Om) * (1 + Om * t) - 4 * (1 - Om) * Real.sqrt (1 + Om * t) + (1 - Om) * (2 - Om)) /
        (Om * (Om * (1 + t))) := by
  have hsq : Real.sqrt (1 + Om * t) ^ 2 = 1 + Om * t := Real.sq_sqrt hu.le
  have hk : Real.sqrt (1 - Om) ^ 2 = 1 - Om := Real.sq_sqrt (by linarith)
  have hP := mattig_poly_pos Om t hOm hOm1 hu
  have hrhs : 0 ≤ ((2 - Om) * (1 + Om * t) - 4 * (1 - Om) * Real.sqrt (1 + Om * t) +
      (1 - Om) * (2 - Om)) / (Om * (Om * (1 + t))) := by positivity
  rw [← Real.sqrt_sq hrhs]
  congr 1
  rw [mul_pow, hk]
  have ht' : 1 + t ≠ 0 := ht.ne'
  have hOm' : Om ≠ 0 := hOm.ne'
  clear hP hrhs hk
  generalize Real.sqrt (1 + Om * t) = u at hsq ⊢
  field_simp
  have ht_eq : t = (u ^ 2 - 1) / Om := by
    field_simp
    linarith
  clear hu ht ht' hsq
  subst ht_eq
  field_simp
  ring

/-- Derivative of `asinh(sqrt(1-Om) * tau(x)) / sqrt(1-Om)`: it is `1/((1+t)*sqrt(1+Om*t))`. -/
theorem radial_open_hasDerivAt (Om t : ℝ) (hOm : 0 < Om) (hOm1 : Om < 1) (hu : 0 < 1 + Om * t)
    (ht : 0 < 1 + t) :
    HasDerivAt
      (fun x : ℝ => Real.arsinh (Real.sqrt (1 - Om) *
        (2 * (2 - Om * (1 - x) - (2 - Om) * Real.sqrt (1 + Om * x)) / ((1 + x) * Om * Om))) /
          Real.sqrt (1 - Om))
      (1 / ((1 + t) * Real.sqrt (1 + Om * t))) t := by
  have hs : 0 < Real.sqrt (1 + Om * t) := Real.sqrt_pos.mpr hu
  have hk : 0 < Real.sqrt (1 - Om) := Real.sqrt_pos.mpr (by linarith)
  have hP := mattig_poly_pos Om t hOm hOm1 hu
  have h := (((mattig_hasDerivAt Om t hOm hu ht).const_mul (Real.sqrt (1 - Om))).arsinh).div_const
    (Real.sqrt (1 - Om))
  convert h using 1
  rw [mattig_cosh Om t hOm hOm1 hu ht, smul_eq_mul]
  field_simp
  ring

/-- For `Om0 < 1`, `comovingDistanceOM` is `(c/H0) * asinh(sqrt(1-Om0) * tau(z)) / sqrt(1-Om0)`
with `tau` Mattig's expression. -/
theorem comovingDistanceOM_eq_open (c : Consts) (Om0 H0 x : ℝ) (hOm1 : Om0 < 1) :
    comovingDistanceOM c x Om0 H0 =
      c.SpeedOfLightKmS / H0 *
        (Real.arsinh (Real.sqrt (1 - Om0) *
          (2 * (2 - Om0 * (1 - x) - (2 - Om0) * Real.sqrt (1 + Om0 * x)) /
            ((1 + x) * Om0 * Om0))) / Real.sqrt (1 - Om0)) := by
  have hk : 0 < 1 - Om0 := by linarith
  have hs : 0 < Real.sqrt (1 - Om0) := Real.sqrt_pos.mpr hk
  simp only [comovingDistanceOM, comovingTransverseDistanceOM, if_neg hk.ne']
  by_cases hD : c.SpeedOfLightKmS / H0 = 0
  · rw [hD]
    simp
  · have harg : c.SpeedOfLightKmS / H0 * 2 *
          (2 - Om0 * (1 - x) - (2 - Om0) * Real.sqrt (1 + Om0 * x)) / ((1 + x) * Om0 * Om0) /
          (c.SpeedOfLightKmS / H0 / Real.sqrt (1 - Om0)) =
        Real.sqrt (1 - Om0) *
          (2 * (2 - Om0 * (1 - x) - (2 - Om0) * Real.sqrt (1 + Om0 * x)) /
            ((1 + x) * Om0 * Om0)) := by
      rw [show c.SpeedOfLightKmS / H0 * 2 *
          (2 - Om0 * (1 - x) - (2 - Om0) * Real.sqrt (1 + Om0 * x)) / ((1 + x) * Om0 * Om0) =
          c.SpeedOfLightKmS / H0 *
            (2 * (2 - Om0 * (1 - x) - (2 - Om0) * Real.sqrt (1 + Om0 * x)) /
              ((1 + x) * Om0 * Om0)) by ring]
      generalize 2 * (2 - Om0 * (1 - x) - (2 - Om0) * Real.sqrt (1 + Om0 * x)) /
        ((1 + x) * Om0 * Om0) = A
      generalize c.SpeedOfLightKmS / H0 = Dh at hD
      field_simp
      ring
    rw [harg]
    ring

/-- The expansion rate of the matter-only model without radiation:
`E(t) = (1+t) * sqrt(1+Om0*t)` for `t ≥ -1`. -/
theorem lambdaCDM_E_matter (H0 Om0 t : ℝ) (ht : 0 ≤ 1 + t) :
    LambdaCDM.E ⟨H0, Om0, 0, 0, 0⟩ t = (1 + t) * Real.sqrt (1 + Om0 * t) := by
  have hrad : (1 + t) * (1 + t) * ((((0 : ℝ) + 0) * (1 + t) + Om0) * (1 + t) + (1 - (Om0 + 0))) +
      0 * 1 = (1 + t) * (1 + t) * (1 + Om0 * t) := by ring
  simp only [LambdaCDM.E]
  rw [hrad, Real.sqrt_mul (mul_self_nonneg _), Real.sqrt_mul_self ht]

/-- Derivative of the matter-only radial closed form: for `0 < Om0 ≤ 1` and `t > -1`,
`d/dt comovingDistanceOM(t, Om0, H0) = (c/H0) / ((1+t) * sqrt(1+Om0*t))`. -/
theorem comovingDistanceOM_hasDerivAt (c : Consts) (Om0 H0 t : ℝ) (hOm0 : 0 < Om0)
    (hOm1 : Om0 ≤ 1) (ht : -1 < t) :
    HasDerivAt (fun x => comovingDistanceOM c x Om0 H0)
      (c.SpeedOfLightKmS / H0 * (1 / ((1 + t) * Real.sqrt (1 + Om0 * t)))) t := by
  have ht' : 0 < 1 + t := by linarith
  have hu : 0 < 1 + Om0 * t := by nlinarith
  have hs : 0 < Real.sqrt (1 + Om0 * t) := Real.sqrt_pos.mpr hu
  rcases eq_or_lt_of_le hOm1 with h1 | h1
  · subst h1
    have hfun : (fun x => comovingDistanceOM c x 1 H0) = fun x =>
        c.SpeedOfLightKmS / H0 *
          (2 * (2 - 1 * (1 - x) - (2 - 1) * Real.sqrt (1 + 1 * x)) / ((1 + x) * 1 * 1)) := by
      funext x
      simp only [comovingDistanceOM, comovingTransverseDistanceOM, sub_self, if_true]
      ring
    rw [hfun]
    have h := (mattig_hasDerivAt 1 t one_pos hu ht').const_mul (c.SpeedOfLightKmS / H0)
    convert h using 2
    field_simp
    ring
  · have hfun : (fun x => comovingDistanceOM c x Om0 H0) = fun x =>
        c.SpeedOfLightKmS / H0 *
          (Real.arsinh (Real.sqrt (1 - Om0) *
            (2 * (2 - Om0 * (1 - x) - (2 - Om0) * Real.sqrt (1 + Om0 * x)) /
              ((1 + x) * Om0 * Om0))) / Real.sqrt (1 - Om0)) := by
      funext x
      exact comovingDistanceOM_eq_open c Om0 H0 x h1
    rw [hfun]
    exact (radial_open_hasDerivAt Om0 t hOm0 h1 hu ht').const_mul (c.SpeedOfLightKmS / H0)

/-- C19: the matter-only radial closed form is the integral it replaces.  For
`0 < Om0 ≤ 1`, `H0 > 0` and `z ≥ 0`,
`comovingDistanceOM(z, Om0, H0) = (c/H0) * ∫_0^z dz' / E(z')` with `E` the
`LambdaCDM.E` of `{Om0, Ol0: 0, Ogamma0: 0, Onu0: 0}`, which is
`(1+z') * sqrt(1+Om0*z')` for `z' ≥ 0`; equivalently `comovingDistanceOM(0) = 0` and
its derivative in `z` is `(c/H0) / E(z)`. -/
theorem comovingDistanceOM_eq_integral (c : Consts) (Om0 H0 z : ℝ) (hOm0 : 0 < Om0)
    (hOm1 : Om0 ≤ 1) (hH : 0 < H0) (hz : 0 ≤ z) :
    comovingDistanceOM c z Om0 H0 =
        c.SpeedOfLightKmS / H0 * ∫ t in (0 : ℝ)..z, 1 / LambdaCDM.E ⟨H0, Om0, 0, 0, 0⟩ t ∧
      (∀ t : ℝ, 0 ≤ t →
        LambdaCDM.E ⟨H0, Om0, 0, 0, 0⟩ t = (1 + t) * Real.sqrt (1 + Om0 * t)) ∧
      comovingDistanceOM c 0 Om0 H0 = 0 ∧
      HasDerivAt (fun t => comovingDistanceOM c t Om0 H0)
        (c.SpeedOfLightKmS / H0 / LambdaCDM.E ⟨H0, Om0, 0, 0, 0⟩ z) z := by
  have _hH := hH
  have hE : ∀ t : ℝ, 0 ≤ t →
      LambdaCDM.E ⟨H0, Om0, 0, 0, 0⟩ t = (1 + t) * Real.sqrt (1 + Om0 * t) :=
    fun t ht => lambdaCDM_E_matter H0 Om0 t (by linarith)
  have hEpos : ∀ t : ℝ, 0 ≤ t → 0 < LambdaCDM.E ⟨H0, Om0, 0, 0, 0⟩ t := by
    intro t ht
    rw [hE t ht]
    have hu : 0 < 1 + Om0 * t := by nlinarith
    have hs : 0 < Real.sqrt (1 + Om0 * t) := Real.sqrt_pos.mpr hu
    positivity
  have hderiv : ∀ t : ℝ, 0 ≤ t → HasDerivAt (fun x => comovingDistanceOM c x Om0 H0)
      (c.SpeedOfLightKmS / H0 * (1 / LambdaCDM.E ⟨H0, Om0, 0, 0, 0⟩ t)) t := by
    intro t ht
    rw [hE t ht]
    exact comovingDistanceOM_hasDerivAt c Om0 H0 t hOm0 hOm1 (by linarith)
  have hcont : Continuous (fun t => LambdaCDM.E ⟨H0, Om0, 0, 0, 0⟩ t) := by
    unfold LambdaCDM.E
    fun_prop
  have hint : IntervalIntegrable
      (fun t => c.SpeedOfLightKmS / H0 * (1 / LambdaCDM.E ⟨H0, Om0, 0, 0, 0⟩ t))
      MeasureTheory.volume 0 z := by
    apply ContinuousOn.intervalIntegrable
    apply ContinuousOn.mul continuousOn_const
    apply ContinuousOn.div continuousOn_const hcont.continuousOn
    intro t ht
    rw [Set.uIcc_of_le hz] at ht
    exact (hEpos t ht.1).ne'
  have hftc := intervalIntegral.integral_eq_sub_of_hasDerivAt
    (fun t ht => hderiv t (by rw [Set.uIcc_of_le hz] at ht; exact ht.1)) hint
  rw [intervalIntegral.integral_const_mul, comovingDistanceOM_zero, sub_zero] at hftc
  refine ⟨hftc.symm, hE, comovingDistanceOM_zero c Om0 H0, ?_⟩
  have h := hderiv z hz
  rwa [mul_one_div] at h

/-- Instance of C19 at `Om0 = 0.3`, `H0 = 70`, `z = 0.5`. -/
theorem comovingDistanceOM_eq_integral_witness :
    comovingDistanceOM sampleConsts 0.5 0.3 70 =
        sampleConsts.SpeedOfLightKmS / 70 *
          ∫ t in (0 : ℝ)..0.5, 1 / LambdaCDM.E ⟨70, 0.3, 0, 0, 0⟩ t ∧
      (∀ t : ℝ, 0 ≤ t →
        LambdaCDM.E ⟨70, 0.3, 0, 0, 0⟩ t = (1 + t) * Real.sqrt (1 + 0.3 * t)) ∧
      comovingDistanceOM sampleConsts 0 0.3 70 = 0 ∧
      HasDerivAt (fun t => comovingDistanceOM sampleConsts t 0.3 70)
        (sampleConsts.SpeedOfLightKmS / 70 / LambdaCDM.E ⟨70, 0.3, 0, 0, 0⟩ 0.5) 0.5 :=
  comovingDistanceOM_eq_integral sampleConsts 0.3 70 0.5 (by norm_num) (by norm_num)
    (by norm_num) (by norm_num)

/-! ## The matter-only age closed form as an improper integral -/

/-- Derivative of `asinh(sqrt(x))` at a positive point. -/
theorem arsinh_sqrt_hasDerivAt (q : ℝ) (hq : 0 < q) :
    HasDerivAt (fun x => Real.arsinh (Real.sqrt x)) (1 / (2 * (Real.sqrt q * Real.sqrt (1 + q)))) q := by
  have hs : 0 < Real.sqrt q := Real.sqrt_pos.mpr hq
  have hs1 : 0 < Real.sqrt (1 + q) := Real.sqrt_pos.mpr (by linarith)
  have h := ((hasDerivAt_id q).sqrt hq.ne').arsinh
  simp only [id] at h
  rw [Real.sq_sqrt hq.le, smul_eq_mul] at h
  convert h using 1
  field_simp
  ring

/-- The product `sqrt(q) * sqrt(1+q)` at `q = (1/Om - 1)/(1+t)`. -/
theorem sqrt_ratio_mul (Om t : ℝ) (hOm : 0 < Om) (hOm1 : Om < 1) (ht : 0 < 1 + t) :
    Real.sqrt ((1 / Om - 1) / (1 + t)) * Real.sqrt (1 + (1 / Om - 1) / (1 + t)) =
      Real.sqrt (1 - Om) * Real.sqrt (1 + Om * t) / (Om * (1 + t)) := by
  have hu : 0 < 1 + Om * t := by nlinarith
  have hk : 0 < 1 - Om := by linarith
  have hq : 0 ≤ (1 / Om - 1) / (1 + t) := by
    apply div_nonneg _ ht.le
    rw [sub_nonneg, one_le_div hOm]
    exact hOm1.le
  have hrhs : 0 ≤ Real.sqrt (1 - Om) * Real.sqrt (1 + Om * t) / (Om * (1 + t)) := by positivity
  rw [← Real.sqrt_mul hq, ← Real.sqrt_sq hrhs]
  congr 1
  rw [div_pow, mul_pow, Real.sq_sqrt hk.le, Real.sq_sqrt hu.le]
  field_simp
  ring

/-- The power `k^(-3/2)` is `1/(k * sqrt(k))` for positive `k`. -/
theorem rpow_neg_three_halves (k : ℝ) (hk : 0 < k) :
    k ^ (-3 / 2 : ℝ) = 1 / (k * Real.sqrt k) := by
  rw [show (-3 / 2 : ℝ) = -(1 + 1 / 2) by norm_num, Real.rpow_neg hk.le, Real.rpow_add hk,
    Real.rpow_one, ← Real.sqrt_eq_rpow, one_div]

/-- Derivative of the bracket of `ageOM`: it is `-1/((1+t)^2 * sqrt(1+Om*t))`. -/
theorem ageOM_core_hasDerivAt (Om t : ℝ) (hOm : 0 < Om) (hOm1 : Om < 1) (ht : 0 < 1 + t) :
    HasDerivAt
      (fun x : ℝ => Real.sqrt (1 + Om * x) / ((1 - Om) * (1 + x)) -
        Om * (1 - Om) ^ (-3 / 2 : ℝ) * Real.arsinh (Real.sqrt ((1 / Om - 1) / (1 + x))))
      (-(1 / ((1 + t) ^ 2 * Real.sqrt (1 + Om * t)))) t := by
  have hu : 0 < 1 + Om * t := by nlinarith
  have hk : 0 < 1 - Om := by linarith
  have hs : 0 < Real.sqrt (1 + Om * t) := Real.sqrt_pos.mpr hu
  have hsk : 0 < Real.sqrt (1 - Om) := Real.sqrt_pos.mpr hk
  have hq : 0 < (1 / Om - 1) / (1 + t) := by
    apply div_pos _ ht
    rw [sub_pos, one_lt_div hOm]
    exact hOm1
  have h1 : HasDerivAt (fun x : ℝ => 1 + Om * x) Om t := by
    simpa using ((hasDerivAt_id t).const_mul Om).const_add 1
  have h2 : HasDerivAt (fun x : ℝ => Real.sqrt (1 + Om * x)) (Om / (2 * Real.sqrt (1 + Om * t))) t :=
    h1.sqrt hu.ne'
  have h3 : HasDerivAt (fun x : ℝ => (1 - Om) * (1 + x)) (1 - Om) t := by
    simpa using ((hasDerivAt_id t).const_add 1).const_mul (1 - Om)
  have hfirst := h2.div h3 (by positivity)
  have h4 : HasDerivAt (fun x : ℝ => (1 / Om - 1) / (1 + x))
      (-(1 / Om - 1) / (1 + t) ^ 2) t := by
    have := (hasDerivAt_const t (1 / Om - 1)).div ((hasDerivAt_id t).const_add 1) ht.ne'
    simpa using this
  have h5 := (arsinh_sqrt_hasDerivAt _ hq).comp t h4
  rw [sqrt_ratio_mul Om t hOm hOm1 ht] at h5
  have hsecond := h5.const_mul (Om * (1 - Om) ^ (-3 / 2 : ℝ))
  have htot := hfirst.sub hsecond
  convert htot using 1
  rw [rpow_neg_three_halves _ hk]
  have hu2 : Real.sqrt (1 + Om * t) ^ 2 = 1 + Om * t := Real.sq_sqrt hu.le
  have hk2 : Real.sqrt (1 - Om) ^ 2 = 1 - Om := Real.sq_sqrt hk.le
  have ht' : 1 + t ≠ 0 := ht.ne'
  have hOm' : Om ≠ 0 := hOm.ne'
  have hk' : 1 - Om ≠ 0 := hk.ne'
  generalize Real.sqrt (1 + Om * t) = u at hu2 hs ⊢
  generalize Real.sqrt (1 - Om) = sk at hk2 hsk ⊢
  field_simp
  have hOm_eq : Om = 1 - sk ^ 2 := by linarith
  have ht_eq : t = (u ^ 2 - 1) / Om := by
    field_simp
    linarith
  clear hq hu hk ht hOm1 hOm h1 h2 h3 hfirst h4 h5 hsecond htot hu2 hk2 ht' hk'
  subst ht_eq
  subst hOm_eq
  field_simp
  ring

/-- The bracket of `ageOM` tends to `0` as the redshift tends to `+∞`. -/
theorem ageOM_core_tendsto (Om : ℝ) (hOm : 0 < Om) (hOm1 : Om < 1) :
    Filter.Tendsto
      (fun x : ℝ => Real.sqrt (1 + Om * x) / ((1 - Om) * (1 + x)) -
        Om * (1 - Om) ^ (-3 / 2 : ℝ) * Real.arsinh (Real.sqrt ((1 / Om - 1) / (1 + x))))
      Filter.atTop (nhds 0) := by
  have hk : 0 < 1 - Om := by linarith
  have hx1 : Filter.Tendsto (fun x : ℝ => 1 + x) Filter.atTop Filter.atTop :=
    Filter.tendsto_atTop_add_const_left _ 1 Filter.tendsto_id
  have hbound : Filter.Tendsto (fun x : ℝ => (1 / (1 - Om)) * (Real.sqrt (1 + x))⁻¹)
      Filter.atTop (nhds 0) := by
    have hsqrt : Filter.Tendsto (fun x : ℝ => Real.sqrt x) Filter.atTop Filter.atTop := by
      simp only [Real.sqrt_eq_rpow]
      exact tendsto_rpow_atTop (by norm_num)
    have h := (hsqrt.comp hx1).inv_tendsto_atTop
    have h2 := h.const_mul (1 / (1 - Om))
    simpa using h2
  have hfirst : Filter.Tendsto (fun x : ℝ => Real.sqrt (1 + Om * x) / ((1 - Om) * (1 + x)))
      Filter.atTop (nhds 0) := by
    refine squeeze_zero' ?_ ?_ hbound
    · filter_upwards [Filter.eventually_ge_atTop (0 : ℝ)] with x hx
      have : 0 < 1 + x := by linarith
      positivity
    · filter_upwards [Filter.eventually_ge_atTop (0 : ℝ)] with x hx
      have hxp : 0 < 1 + x := by linarith
      have hsx : 0 < Real.sqrt (1 + x) := Real.sqrt_pos.mpr hxp
      have hle : Real.sqrt (1 + Om * x) ≤ Real.sqrt (1 + x) := by
        apply Real.sqrt_le_sqrt
        nlinarith
      have hsq : Real.sqrt (1 + x) * Real.sqrt (1 + x) = 1 + x := Real.mul_self_sqrt hxp.le
      have hpos : 0 < (1 - Om) * (1 + x) := by positivity
      rw [div_le_iff₀ hpos]
      calc Real.sqrt (1 + Om * x) ≤ Real.sqrt (1 + x) := hle
        _ = 1 / (1 - Om) * (Real.sqrt (1 + x))⁻¹ * ((1 - Om) * (1 + x)) := by
          field_simp
          linear_combination (1 - Om) * hsq
  have hq : Filter.Tendsto (fun x : ℝ => (1 / Om - 1) / (1 + x)) Filter.atTop (nhds 0) :=
    tendsto_const_nhds.div_atTop hx1
  have hcont : Continuous (fun y : ℝ => Real.arsinh (Real.sqrt y)) :=
    Real.continuous_arsinh.comp Real.continuous_sqrt
  have hars : Filter.Tendsto (fun x : ℝ => Real.arsinh (Real.sqrt ((1 / Om - 1) / (1 + x))))
      Filter.atTop (nhds 0) := by
    have h := (hcont.tendsto 0).comp hq
    simpa using h
  have hsecond := hars.const_mul (Om * (1 - Om) ^ (-3 / 2 : ℝ))
  have h := hfirst.sub hsecond
  simpa using h

/-- For `Om0 ≠ 1`, `ageOM` is `hubbleTime(H0)` times its bracket. -/
theorem ageOM_eq_of_ne_one (c : Consts) (Om0 H0 x : ℝ) (h : Om0 ≠ 1) :
    ageOM c x Om0 H0 =
      hubbleTime c H0 *
        (Real.sqrt (1 + Om0 * x) / ((1 - Om0) * (1 + x)) -
          Om0 * (1 - Om0) ^ (-3 / 2 : ℝ) * Real.arsinh (Real.sqrt ((1 / Om0 - 1) / (1 + x)))) := by
  simp only [ageOM, if_neg h]

/-- C20: the matter-only age closed form is the improper integral from `z` to `+∞`.
For `0 < Om0 < 1`, `H0 > 0` and `z > -1`,
`ageOM(z, Om0, H0) = hubbleTime(H0) * ∫_z^∞ dz' / ((1+z') * E(z'))` with `E` the
`LambdaCDM.E` of `{Om0, Ol0: 0, Ogamma0: 0, Onu0: 0}`, which is
`(1+z') * sqrt(1+Om0*z')` for `z' > -1`; equivalently the derivative of `ageOM` in
`z` is `-hubbleTime(H0)/((1+z)^2 * sqrt(1+Om0*z))` and `ageOM` tends to `0` as
`z → +∞`. -/
theorem ageOM_eq_integral (c : Consts) (Om0 H0 z : ℝ) (hOm0 : 0 < Om0) (hOm1 : Om0 < 1)
    (hH : 0 < H0) (hz : -1 < z) :
    ageOM c z Om0 H0 =
        hubbleTime c H0 *
          ∫ t in Set.Ioi z, 1 / ((1 + t) * LambdaCDM.E ⟨H0, Om0, 0, 0, 0⟩ t) ∧
      (∀ t : ℝ, -1 < t →
        LambdaCDM.E ⟨H0, Om0, 0, 0, 0⟩ t = (1 + t) * Real.sqrt (1 + Om0 * t)) ∧
      HasDerivAt (fun t => ageOM c t Om0 H0)
        (-hubbleTime c H0 / ((1 + z) ^ 2 * Real.sqrt (1 + Om0 * z))) z ∧
      Filter.Tendsto (fun t => ageOM c t Om0 H0) Filter.atTop (nhds 0) := by
  have _hH := hH
  have hne : Om0 ≠ 1 := hOm1.ne
  have hE : ∀ t : ℝ, -1 < t →
      LambdaCDM.E ⟨H0, Om0, 0, 0, 0⟩ t = (1 + t) * Real.sqrt (1 + Om0 * t) :=
    fun t ht => lambdaCDM_E_matter H0 Om0 t (by linarith)
  have hfun : (fun t => ageOM c t Om0 H0) = fun t =>
      hubbleTime c H0 *
        (Real.sqrt (1 + Om0 * t) / ((1 - Om0) * (1 + t)) -
          Om0 * (1 - Om0) ^ (-3 / 2 : ℝ) *
            Real.arsinh (Real.sqrt ((1 / Om0 - 1) / (1 + t)))) := by
    funext t
    exact ageOM_eq_of_ne_one c Om0 H0 t hne
  have hderiv : ∀ t : ℝ, -1 < t →
      HasDerivAt
        (fun x : ℝ => -(Real.sqrt (1 + Om0 * x) / ((1 - Om0) * (1 + x)) -
          Om0 * (1 - Om0) ^ (-3 / 2 : ℝ) *
            Real.arsinh (Real.sqrt ((1 / Om0 - 1) / (1 + x)))))
        (1 / ((1 + t) ^ 2 * Real.sqrt (1 + Om0 * t))) t := by
    intro t ht
    have h := (ageOM_core_hasDerivAt Om0 t hOm0 hOm1 (by linarith)).neg
    rwa [neg_neg] at h
  have hlim := (ageOM_core_tendsto Om0 hOm0 hOm1).neg
  rw [neg_zero] at hlim
  have hint := MeasureTheory.integral_Ioi_of_hasDerivAt_of_nonneg'
    (fun t (ht : t ∈ Set.Ici z) => hderiv t (lt_of_lt_of_le hz ht))
    (fun t (ht : t ∈ Set.Ioi z) => by
      have h1 : 0 < 1 + t := by
        have : z < t := ht
        linarith
      have hu : 0 < 1 + Om0 * t := by nlinarith
      have hs : 0 < Real.sqrt (1 + Om0 * t) := Real.sqrt_pos.mpr hu
      positivity)
    hlim
  have hcongr : ∫ t in Set.Ioi z, 1 / ((1 + t) * LambdaCDM.E ⟨H0, Om0, 0, 0, 0⟩ t) =
      ∫ t in Set.Ioi z, 1 / ((1 + t) ^ 2 * Real.sqrt (1 + Om0 * t)) := by
    apply MeasureTheory.setIntegral_congr_fun measurableSet_Ioi
    intro t ht
    have h1 : -1 < t := lt_trans hz ht
    simp only [hE t h1]
    ring_nf
  refine ⟨?_, hE, ?_, ?_⟩
  · rw [hcongr, hint, ageOM_eq_of_ne_one c Om0 H0 z hne]
    ring
  · rw [hfun]
    have h := (ageOM_core_hasDerivAt Om0 z hOm0 hOm1 (by linarith)).const_mul (hubbleTime c H0)
    convert h using 1
    ring
  · rw [hfun]
    have h := (ageOM_core_tendsto Om0 hOm0 hOm1).const_mul (hubbleTime c H0)
    rwa [mul_zero] at h

/-- Instance of C20 at `Om0 = 0.3`, `H0 = 70`, `z = 0.5`. -/
theorem ageOM_eq_integral_witness :
    ageOM sampleConsts 0.5 0.3 70 =
        hubbleTime sampleConsts 70 *
          ∫ t in Set.Ioi (0.5 : ℝ), 1 / ((1 + t) * LambdaCDM.E ⟨70, 0.3, 0, 0, 0⟩ t) ∧
      (∀ t : ℝ, -1 < t →
        LambdaCDM.E ⟨70, 0.3, 0, 0, 0⟩ t = (1 + t) * Real.sqrt (1 + 0.3 * t)) ∧
      HasDerivAt (fun t => ageOM sampleConsts t 0.3 70)
        (-hubbleTime sampleConsts 70 / ((1 + 0.5) ^ 2 * Real.sqrt (1 + 0.3 * 0.5))) 0.5 ∧
      Filter.Tendsto (fun t => ageOM sampleConsts t 0.3 70) Filter.atTop (nhds 0) :=
  ageOM_eq_integral sampleConsts 0.3 70 0.5 (by norm_num) (by norm_num) (by norm_num)
    (by norm_num)

/-! ## Derived distance measures and accessors -/

/-- C23: for `LambdaCDM` and `WACDM`, `LuminosityDistance(z) = (1+z) *
ComovingTransverseDistance(z)`, `AngularDiameterDistance(z) =
ComovingTransverseDistance(z) / (1+z)` and `DistanceModulus(z) =
5*log10(LuminosityDistance(z)) + 25`, where `log10` is the base-10 logarithm. -/
theorem distance_measures (c : Consts) (p : Prims) (cosL : LambdaCDM) (cosW : WACDM) (z : ℝ) :
    (LambdaCDM.LuminosityDistance c p cosL z =
          (1 + z) * LambdaCDM.ComovingTransverseDistance c p cosL z ∧
        LambdaCDM.AngularDiameterDistance c p cosL z =
          LambdaCDM.ComovingTransverseDistance c p cosL z / (1 + z) ∧
        LambdaCDM.DistanceModulus c p cosL z =
          5 * log10 (LambdaCDM.LuminosityDistance c p cosL z) + 25) ∧
      (WACDM.LuminosityDistance c p cosW z =
          (1 + z) * WACDM.ComovingTransverseDistance c p cosW z ∧
        WACDM.AngularDiameterDistance c p cosW z =
          WACDM.ComovingTransverseDistance c p cosW z / (1 + z) ∧
        WACDM.DistanceModulus c p cosW z =
          5 * log10 (WACDM.LuminosityDistance c p cosW z) + 25) ∧
      (∀ x : ℝ, log10 x = Real.log x / Real.log 10) :=
  ⟨⟨rfl, rfl, rfl⟩, ⟨rfl, rfl, rfl⟩, fun _ => rfl⟩

/-- C24: for `LambdaCDM` and `WACDM`, `Ok0() = 1 - (Om0 + Ol0)` whatever `H0`,
`Ogamma0`, `Onu0`, `W0` and `WA` are, and `E` uses that same value for its
curvature term; `ComovingDistance(z) = ComovingDistanceZ1Z2(0, z)` and
`HubbleDistance() = SpeedOfLightKmS / H0`. -/
theorem Ok0_and_accessors (c : Consts) (p : Prims) (H0 Om0 Ol0 W0 WA Og On z : ℝ) :
    (LambdaCDM.Ok0 ⟨H0, Om0, Ol0, Og, On⟩ = 1 - (Om0 + Ol0) ∧
        WACDM.Ok0 ⟨H0, Om0, Ol0, W0, WA, Og, On⟩ = 1 - (Om0 + Ol0)) ∧
      (LambdaCDM.E ⟨H0, Om0, Ol0, Og, On⟩ z =
          Real.sqrt ((1 + z) * (1 + z) *
            (((Og + On) * (1 + z) + Om0) * (1 + z) + LambdaCDM.Ok0 ⟨H0, Om0, Ol0, Og, On⟩) +
            Ol0 * 1) ∧
        WACDM.E ⟨H0, Om0, Ol0, W0, WA, Og, On⟩ z =
          Real.sqrt ((1 + z) * (1 + z) * (1 + z) * (1 + z) * (Og + On) +
            (1 + z) * (1 + z) * (1 + z) * Om0 +
            (1 + z) * (1 + z) * WACDM.Ok0 ⟨H0, Om0, Ol0, W0, WA, Og, On⟩ +
            Ol0 * WACDM.deScale ⟨H0, Om0, Ol0, W0, WA, Og, On⟩ z)) ∧
      (LambdaCDM.ComovingDistance c p ⟨H0, Om0, Ol0, Og, On⟩ z =
          LambdaCDM.ComovingDistanceZ1Z2 c p ⟨H0, Om0, Ol0, Og, On⟩ 0 z ∧
        WACDM.ComovingDistance c p ⟨H0, Om0, Ol0, W0, WA, Og, On⟩ z =
          WACDM.ComovingDistanceZ1Z2 c p ⟨H0, Om0, Ol0, W0, WA, Og, On⟩ 0 z) ∧
      (LambdaCDM.HubbleDistance c ⟨H0, Om0, Ol0, Og, On⟩ = c.SpeedOfLightKmS / H0 ∧
        WACDM.HubbleDistance c ⟨H0, Om0, Ol0, W0, WA, Og, On⟩ = c.SpeedOfLightKmS / H0) :=
  ⟨⟨rfl, rfl⟩, ⟨rfl, rfl⟩, ⟨rfl, rfl⟩, ⟨rfl, rfl⟩⟩

/-- C29: Etherington reciprocity.  For `LambdaCDM` and `WACDM` and `z ≠ -1`,
`LuminosityDistance(z) = (1+z)^2 * AngularDiameterDistance(z)`. -/
theorem etherington_reciprocity (c : Consts) (p : Prims) (cosL : LambdaCDM) (cosW : WACDM)
    (z : ℝ) (hz : z ≠ -1) :
    LambdaCDM.LuminosityDistance c p cosL z =
        (1 + z) ^ 2 * LambdaCDM.AngularDiameterDistance c p cosL z ∧
      WACDM.LuminosityDistance c p cosW z =
        (1 + z) ^ 2 * WACDM.AngularDiameterDistance c p cosW z := by
  have h1 : 1 + z ≠ 0 := by
    intro h
    apply hz
    linarith
  constructor
  · simp only [LambdaCDM.LuminosityDistance, LambdaCDM.AngularDiameterDistance]
    field_simp
    ring
  · simp only [WACDM.LuminosityDistance, WACDM.AngularDiameterDistance]
    field_simp
    ring

/-- Instance of C29 at `LambdaCDM{H0: 70, Om0: 0.3, Ol0: 0.6}`,
`WACDM{H0: 70, Om0: 0.3, Ol0: 0.7, W0: -0.9, WA: 2}` and `z = 1`. -/
theorem etherington_reciprocity_witness :
    LambdaCDM.LuminosityDistance sampleConsts samplePrims ⟨70, 0.3, 0.6, 0, 0⟩ 1 =
        (1 + 1) ^ 2 *
          LambdaCDM.AngularDiameterDistance sampleConsts samplePrims ⟨70, 0.3, 0.6, 0, 0⟩ 1 ∧
      WACDM.LuminosityDistance sampleConsts samplePrims ⟨70, 0.3, 0.7, -0.9, 2, 0, 0⟩ 1 =
        (1 + 1) ^ 2 *
          WACDM.AngularDiameterDistance sampleConsts samplePrims ⟨70, 0.3, 0.7, -0.9, 2, 0, 0⟩ 1 :=
  etherington_reciprocity sampleConsts samplePrims ⟨70, 0.3, 0.6, 0, 0⟩
    ⟨70, 0.3, 0.7, -0.9, 2, 0, 0⟩ 1 (by norm_num)

/-! ## Exclusive dispatch guards -/

/-- C27: the non-default case conditions of the `LambdaCDM` switches are
mutually exclusive, so each case decides the result whenever its own condition
holds, whatever the order of the tests: the flat condition (`Ok0() = 0` and
`Om0 < 1`), the matter-only condition (`Ol0 = 0`, with `0 < Om0` and `Om0 ≠ 1` for
`Age` and `LookbackTime`) and the dark-energy-only condition (`Om0 = 0` and
`0 < Ol0 < 1`). -/
theorem lambdaCDM_guards_exclusive (c : Consts) (p : Prims) (cos : LambdaCDM) (z z1 z2 : ℝ) :
    (¬ ((cos.Ok0 = 0 ∧ cos.Om0 < 1) ∧ cos.Ol0 = 0) ∧
        ¬ ((cos.Ok0 = 0 ∧ cos.Om0 < 1) ∧ (cos.Om0 = 0 ∧ 0 < cos.Ol0 ∧ cos.Ol0 < 1)) ∧
        ¬ (cos.Ol0 = 0 ∧ (cos.Om0 = 0 ∧ 0 < cos.Ol0 ∧ cos.Ol0 < 1))) ∧
      ((cos.Ok0 = 0 ∧ cos.Om0 < 1 →
          LambdaCDM.ComovingDistanceZ1Z2 c p cos z1 z2 =
            p.flatComovingDistanceZ1Z2 ⟨cos.H0, cos.Om0⟩ z1 z2) ∧
        (cos.Ol0 = 0 →
          LambdaCDM.ComovingDistanceZ1Z2 c p cos z1 z2 =
            comovingDistanceOMZ1Z2 c z1 z2 cos.Om0 cos.H0)) ∧
      ((cos.Ok0 = 0 ∧ cos.Om0 < 1 →
          LambdaCDM.Age c p cos z = p.flatAge ⟨cos.H0, cos.Om0⟩ z ∧
            LambdaCDM.LookbackTime c p cos z = p.flatLookbackTime ⟨cos.H0, cos.Om0⟩ z) ∧
        (cos.Ol0 = 0 ∧ 0 < cos.Om0 ∧ cos.Om0 ≠ 1 →
          LambdaCDM.Age c p cos z = ageOM c z cos.Om0 cos.H0 ∧
            LambdaCDM.LookbackTime c p cos z = lookbackTimeOM c z cos.Om0 cos.H0) ∧
        (cos.Om0 = 0 ∧ 0 < cos.Ol0 ∧ cos.Ol0 < 1 →
          LambdaCDM.Age c p cos z = ageOL c z cos.Ol0 cos.H0 ∧
            LambdaCDM.LookbackTime c p cos z = lookbackTimeOL c z cos.Ol0 cos.H0)) := by
  have hAB : ¬ ((cos.Ok0 = 0 ∧ cos.Om0 < 1) ∧ cos.Ol0 = 0) := by
    rintro ⟨⟨hk, hm⟩, hOl⟩
    simp only [LambdaCDM.Ok0, hOl] at hk
    linarith
  have hAC : ¬ ((cos.Ok0 = 0 ∧ cos.Om0 < 1) ∧ (cos.Om0 = 0 ∧ 0 < cos.Ol0 ∧ cos.Ol0 < 1)) := by
    rintro ⟨⟨hk, -⟩, hOm, -, hOl⟩
    simp only [LambdaCDM.Ok0, hOm] at hk
    linarith
  have hBC : ¬ (cos.Ol0 = 0 ∧ (cos.Om0 = 0 ∧ 0 < cos.Ol0 ∧ cos.Ol0 < 1)) := by
    rintro ⟨hOl, -, hpos, -⟩
    rw [hOl] at hpos
    exact lt_irrefl _ hpos
  refine ⟨⟨hAB, hAC, hBC⟩, ⟨fun hA => ?_, fun hB => ?_⟩, ⟨fun hA => ?_, fun hB => ?_, fun hC => ?_⟩⟩
  · simp only [LambdaCDM.ComovingDistanceZ1Z2, if_pos hA]
  · have hA : ¬ (cos.Ok0 = 0 ∧ cos.Om0 < 1) := fun h => hAB ⟨h, hB⟩
    simp only [LambdaCDM.ComovingDistanceZ1Z2, if_neg hA, if_pos hB]
  · simp only [LambdaCDM.Age, LambdaCDM.LookbackTime, if_pos hA, and_self]
  · have hA : ¬ (cos.Ok0 = 0 ∧ cos.Om0 < 1) := fun h => hAB ⟨h, hB.1⟩
    simp only [LambdaCDM.Age, LambdaCDM.LookbackTime, if_neg hA, if_pos hB, and_self]
  · have hA : ¬ (cos.Ok0 = 0 ∧ cos.Om0 < 1) := fun h => hAC ⟨h, hC⟩
    have hB : ¬ (cos.Ol0 = 0 ∧ 0 < cos.Om0 ∧ cos.Om0 ≠ 1) := fun h => hBC ⟨h.1, hC⟩
    simp only [LambdaCDM.Age, LambdaCDM.LookbackTime, if_neg hA, if_neg hB, if_pos hC, and_self]

/-- Instance of C27 at `LambdaCDM{H0: 70, Om0: 0, Ol0: 0.5}`, where only the
dark-energy-only condition holds: `Age(0.5) = ageOL(0.5, 0.5, 70)`. -/
theorem lambdaCDM_guards_exclusive_witness :
    LambdaCDM.Age sampleConsts samplePrims ⟨70, 0, 0.5, 0, 0⟩ 0.5 = ageOL sampleConsts 0.5 0.5 70 ∧
      LambdaCDM.LookbackTime sampleConsts samplePrims ⟨70, 0, 0.5, 0, 0⟩ 0.5 =
        lookbackTimeOL sampleConsts 0.5 0.5 70 :=
  (lambdaCDM_guards_exclusive sampleConsts samplePrims ⟨70, 0, 0.5, 0, 0⟩ 0.5 0 1).2.2.2.2
    (by norm_num)

/-! ## Degenerate dark-energy equation of state -/

/-- C28: `WACDM.E` degenerates consistently.  For `z > -1`,
`WACDM{W0: -1, WA: 0}.E(z) = LambdaCDM.E(z)` for the same `H0`, `Om0`, `Ol0`,
`Ogamma0`, `Onu0`; and for every `W0` the dark-energy scale factor of the `WA = 0`
cases (`1` when `W0 = -1`, `(1+z)^(3*(1+W0))` otherwise) equals the general
expression `(1+z)^(3*(1+W0+WA)) * exp(-3*WA*z/(1+z))` at `WA = 0`. -/
theorem waCDM_E_degenerate (H0 Om0 Ol0 Og On W0 z : ℝ) (hz : -1 < z) :
    WACDM.E ⟨H0, Om0, Ol0, -1, 0, Og, On⟩ z = LambdaCDM.E ⟨H0, Om0, Ol0, Og, On⟩ z ∧
      WACDM.deScale ⟨H0, Om0, Ol0, -1, 0, Og, On⟩ z = 1 ∧
      (W0 ≠ -1 → WACDM.deScale ⟨H0, Om0, Ol0, W0, 0, Og, On⟩ z = (1 + z) ^ (3 * (1 + W0))) ∧
      WACDM.deScale ⟨H0, Om0, Ol0, W0, 0, Og, On⟩ z =
        (1 + z) ^ (3 * (1 + W0 + 0)) * Real.exp (-3 * 0 * z / (1 + z)) := by
  have _hz := hz
  have h1 : WACDM.deScale ⟨H0, Om0, Ol0, -1, 0, Og, On⟩ z = 1 := by
    simp [WACDM.deScale]
  have h2 : W0 ≠ -1 →
      WACDM.deScale ⟨H0, Om0, Ol0, W0, 0, Og, On⟩ z = (1 + z) ^ (3 * (1 + W0)) := by
    intro hW
    simp [WACDM.deScale, hW]
  refine ⟨?_, h1, h2, ?_⟩
  · simp only [WACDM.E, LambdaCDM.E, h1]
    congr 1
    ring
  · by_cases hW : W0 = -1
    · subst hW
      rw [h1]
      simp
    · rw [h2 hW]
      simp

/-- Instance of C28 at `H0 = 70`, `Om0 = 0.3`, `Ol0 = 0.7`, `W0 = -0.9`, `z = 1`. -/
theorem waCDM_E_degenerate_witness :
    WACDM.E ⟨70, 0.3, 0.7, -1, 0, 0, 0⟩ 1 = LambdaCDM.E ⟨70, 0.3, 0.7, 0, 0⟩ 1 ∧
      WACDM.deScale ⟨70, 0.3, 0.7, -0.9, 0, 0, 0⟩ 1 = (1 + 1) ^ (3 * (1 + (-0.9 : ℝ))) ∧
      WACDM.deScale ⟨70, 0.3, 0.7, -0.9, 0, 0, 0⟩ 1 =
        (1 + 1) ^ (3 * (1 + (-0.9 : ℝ) + 0)) * Real.exp (-3 * 0 * 1 / (1 + 1)) :=
  ⟨(waCDM_E_degenerate 70 0.3 0.7 0 0 (-0.9) 1 (by norm_num)).1,
    (waCDM_E_degenerate 70 0.3 0.7 0 0 (-0.9) 1 (by norm_num)).2.2.1 (by norm_num),
    (waCDM_E_degenerate 70 0.3 0.7 0 0 (-0.9) 1 (by norm_num)).2.2.2⟩

/-! ## Elliptic-integral arguments -/

/-- C25: for `s > 0` the arguments that `tElliptic` passes to `EllipticRF`,
`x = m`, `y = m + 3 - 2*sqrt(3)`, `z = m + 3 + 2*sqrt(3)` with
`m = 2*sqrt(s*s - s + 1)/s + 2/s - 1`, are all strictly positive, since `m > 1`. -/
theorem tElliptic_arguments_positive (p : Prims) (s : ℝ) (hs : 0 < s) :
    tElliptic p s =
        4 * p.EllipticRF ((2 * Real.sqrt (s * s - s + 1) / s) + (2 / s) - 1)
          ((2 * Real.sqrt (s * s - s + 1) / s) + (2 / s) - 1 + 3 - 2 * Real.sqrt 3)
          ((2 * Real.sqrt (s * s - s + 1) / s) + (2 / s) - 1 + 3 + 2 * Real.sqrt 3) ∧
      1 < (2 * Real.sqrt (s * s - s + 1) / s) + (2 / s) - 1 ∧
      0 < (2 * Real.sqrt (s * s - s + 1) / s) + (2 / s) - 1 ∧
      0 < (2 * Real.sqrt (s * s - s + 1) / s) + (2 / s) - 1 + 3 - 2 * Real.sqrt 3 ∧
      0 < (2 * Real.sqrt (s * s - s + 1) / s) + (2 / s) - 1 + 3 + 2 * Real.sqrt 3 := by
  have hroot : s - 1 < Real.sqrt (s * s - s + 1) := by
    by_cases h1 : s < 1
    · have := Real.sqrt_nonneg (s * s - s + 1)
      linarith
    · have h0 : 0 ≤ s - 1 := by linarith
      rw [Real.lt_sqrt h0]
      nlinarith
  have hm : 1 < (2 * Real.sqrt (s * s - s + 1) / s) + (2 / s) - 1 := by
    have h : 2 < 2 * Real.sqrt (s * s - s + 1) / s + 2 / s := by
      rw [← add_div, lt_div_iff₀ hs]
      linarith
    linarith
  have h3 : Real.sqrt 3 < 2 := by
    rw [Real.sqrt_lt' (by norm_num)]
    norm_num
  have h3' : 0 ≤ Real.sqrt 3 := Real.sqrt_nonneg 3
  refine ⟨rfl, hm, by linarith, by linarith, by linarith⟩

/-- Instance of C25 at `s = 1`. -/
theorem tElliptic_arguments_positive_witness :
    tElliptic samplePrims 1 =
        4 * samplePrims.EllipticRF ((2 * Real.sqrt (1 * 1 - 1 + 1) / 1) + (2 / 1) - 1)
          ((2 * Real.sqrt (1 * 1 - 1 + 1) / 1) + (2 / 1) - 1 + 3 - 2 * Real.sqrt 3)
          ((2 * Real.sqrt (1 * 1 - 1 + 1) / 1) + (2 / 1) - 1 + 3 + 2 * Real.sqrt 3) ∧
      1 < (2 * Real.sqrt (1 * 1 - 1 + 1) / 1) + (2 / 1) - 1 ∧
      0 < (2 * Real.sqrt (1 * 1 - 1 + 1) / 1) + (2 / 1) - 1 ∧
      0 < (2 * Real.sqrt (1 * 1 - 1 + 1) / 1) + (2 / 1) - 1 + 3 - 2 * Real.sqrt 3 ∧
      0 < (2 * Real.sqrt (1 * 1 - 1 + 1) / 1) + (2 / 1) - 1 + 3 + 2 * Real.sqrt 3 :=
  tElliptic_arguments_positive samplePrims 1 (by norm_num)

/-! ## The complex formula on the open branch -/

/-- The principal square root of a non-negative real `x` is the real `sqrt(x)`. -/
theorem csqrt_ofReal_of_nonneg (x : ℝ) (hx : 0 ≤ x) : csqrt (x : ℂ) = (Real.sqrt x : ℂ) := by
  unfold csqrt
  rw [Real.sqrt_eq_rpow, Complex.ofReal_cpow hx]
  norm_num

/-- C26: the complex formula could be used everywhere.  For `Ok0 > 0`, `Dh > 0`
and real `Dc`, the real part of `Dh/csqrt(Ok0) * csinh(csqrt(Ok0) * Dc / Dh)` is
`Dh/sqrt(Ok0) * sinh(sqrt(Ok0) * Dc / Dh)` (and its imaginary part is zero), so
for an `FLRW` model with `Ok0() > 0` the value of
`comovingTransverseDistanceZ1Z2` is the real part of the complex expression. -/
theorem closedAnswer_open (cos : FLRW) (Dh Ok0 Dc z1 z2 : ℝ) (hk : 0 < Ok0) (hD : 0 < Dh)
    (hcos : 0 < cos.Ok0) :
    (closedAnswer Dh Ok0 Dc).re = Dh / Real.sqrt Ok0 * Real.sinh (Real.sqrt Ok0 * Dc / Dh) ∧
      (closedAnswer Dh Ok0 Dc).im = 0 ∧
      comovingTransverseDistanceZ1Z2 cos z1 z2 =
        (closedAnswer cos.HubbleDistance cos.Ok0 (cos.ComovingDistanceZ1Z2 z1 z2)).re := by
  have _hD := hD
  have key : ∀ D k x : ℝ, 0 < k →
      closedAnswer D k x = ((D / Real.sqrt k * Real.sinh (Real.sqrt k * x / D) : ℝ) : ℂ) := by
    intro D k x hk0
    unfold closedAnswer
    rw [csqrt_ofReal_of_nonneg k hk0.le]
    push_cast
    ring
  refine ⟨?_, ?_, ?_⟩
  · rw [key Dh Ok0 Dc hk, Complex.ofReal_re]
  · rw [key Dh Ok0 Dc hk, Complex.ofReal_im]
  · rw [key _ _ _ hcos, Complex.ofReal_re]
    simp only [comovingTransverseDistanceZ1Z2, if_neg hcos.ne', gt_iff_lt, if_pos hcos]

/-- Instance of C26 at `Dh = 299792.458/70`, `Ok0 = 0.1`, `Dc = 3000` and at
`LambdaCDM{H0: 70, Om0: 0.3, Ol0: 0.6}` seen through the `FLRW` interface. -/
theorem closedAnswer_open_witness :
    (closedAnswer (299792.458 / 70) 0.1 3000).re =
        299792.458 / 70 / Real.sqrt 0.1 * Real.sinh (Real.sqrt 0.1 * 3000 / (299792.458 / 70)) ∧
      (closedAnswer (299792.458 / 70) 0.1 3000).im = 0 ∧
      comovingTransverseDistanceZ1Z2
          (LambdaCDM.toFLRW sampleConsts samplePrims ⟨70, 0.3, 0.6, 0, 0⟩) 0 1 =
        (closedAnswer
          (LambdaCDM.toFLRW sampleConsts samplePrims ⟨70, 0.3, 0.6, 0, 0⟩).HubbleDistance
          (LambdaCDM.toFLRW sampleConsts samplePrims ⟨70, 0.3, 0.6, 0, 0⟩).Ok0
          ((LambdaCDM.toFLRW sampleConsts samplePrims ⟨70, 0.3, 0.6, 0, 0⟩).ComovingDistanceZ1Z2
            0 1)).re :=
  closedAnswer_open (LambdaCDM.toFLRW sampleConsts samplePrims ⟨70, 0.3, 0.6, 0, 0⟩)
    (299792.458 / 70) 0.1 3000 0 1 (by norm_num) (by norm_num)
    (by norm_num [LambdaCDM.toFLRW, LambdaCDM.Ok0])

/-! ## Reference values of the open matter-only model -/

/-- With `Ol0 = 0` and `0 < Om0 < 1`, `LambdaCDM.ComovingTransverseDistance(z)` is
Mattig's formula. -/
theorem lambdaCDM_transverse_matter_open (c : Consts) (p : Prims) (cos : LambdaCDM) (z : ℝ)
    (hOl : cos.Ol0 = 0) (hOm1 : cos.Om0 < 1) :
    LambdaCDM.ComovingTransverseDistance c p cos z =
      comovingTransverseDistanceOM c z cos.Om0 cos.H0 := by
  have hDc := lambdaCDM_comovingDistance_matter c p cos z hOl
  simp only [LambdaCDM.ComovingDistance] at hDc
  have hOk : cos.Ok0 = 1 - cos.Om0 := by simp [LambdaCDM.Ok0, hOl]
  have hk : 0 < 1 - cos.Om0 := by linarith
  simp only [LambdaCDM.ComovingTransverseDistance, LambdaCDM.ComovingTransverseDistanceZ1Z2,
    comovingTransverseDistanceZ1Z2, LambdaCDM.toFLRW, hDc, hOk, LambdaCDM.HubbleDistance,
    hubbleDistance]
  rw [if_neg hk.ne', if_pos hk]
  simp only [comovingDistanceOM, if_neg hk.ne']
  apply sinh_transform_arsinh _ _ _ hk
  intro hD
  simp [comovingTransverseDistanceOM, hD]

/-- Mattig's formula at `Om0 = 0.3`, `H0 = 70`, `c = 299792.458` lies within relative
error `1e-6` of `ref` as soon as `sqrt(1 + 0.3*z)` lies in `[lo, hi]` and the two
end values of the (decreasing, affine) dependence on the root do. -/
theorem mattig_reference_bound (c : Consts) (z ref lo hi : ℝ)
    (hc : c.SpeedOfLightKmS = 299792.458) (hz : 0 < 1 + z)
    (hlo : lo ≤ Real.sqrt (1 + 0.3 * z)) (hhi : Real.sqrt (1 + 0.3 * z) ≤ hi)
    (hup : 299792.458 / 70 * 2 * (2 - 0.3 * (1 - z) - (2 - 0.3) * lo) ≤
      (ref + 1e-6 * ref) * ((1 + z) * 0.3 * 0.3))
    (hdown : (ref - 1e-6 * ref) * ((1 + z) * 0.3 * 0.3) ≤
      299792.458 / 70 * 2 * (2 - 0.3 * (1 - z) - (2 - 0.3) * hi)) :
    |comovingTransverseDistanceOM c z 0.3 70 - ref| ≤ 1e-6 * ref := by
  have hden : (0 : ℝ) < (1 + z) * 0.3 * 0.3 := by positivity
  simp only [comovingTransverseDistanceOM, hc]
  have h1 : ref - 1e-6 * ref ≤
      299792.458 / 70 * 2 * (2 - 0.3 * (1 - z) - (2 - 0.3) * Real.sqrt (1 + 0.3 * z)) /
        ((1 + z) * 0.3 * 0.3) := by
    rw [le_div_iff₀ hden]
    have : 299792.458 / 70 * 2 * (2 - 0.3 * (1 - z) - (2 - 0.3) * hi) ≤
        299792.458 / 70 * 2 * (2 - 0.3 * (1 - z) - (2 - 0.3) * Real.sqrt (1 + 0.3 * z)) := by
      nlinarith
    linarith
  have h2 : 299792.458 / 70 * 2 * (2 - 0.3 * (1 - z) - (2 - 0.3) * Real.sqrt (1 + 0.3 * z)) /
        ((1 + z) * 0.3 * 0.3) ≤ ref + 1e-6 * ref := by
    rw [div_le_iff₀ hden]
    have : 299792.458 / 70 * 2 * (2 - 0.3 * (1 - z) - (2 - 0.3) * Real.sqrt (1 + 0.3 * z)) ≤
        299792.458 / 70 * 2 * (2 - 0.3 * (1 - z) - (2 - 0.3) * lo) := by
      nlinarith
    linarith
  rw [abs_le]
  constructor <;> linarith

/-- C22: reference-table agreement for the open matter-only model.  With
`SpeedOfLightKmS = 299792.458`, `LambdaCDM{H0: 70, Om0: 0.3, Ol0: 0}` has
`ComovingTransverseDistance(z)` within relative error `1e-6` of `1710.1240353`,
`2936.1472205`, `4747.54480615` and `6107.95517311` at `z = 0.5, 1, 2, 3`. -/
theorem comovingTransverseDistance_reference_table (c : Consts) (p : Prims)
    (hc : c.SpeedOfLightKmS = 299792.458) :
    |LambdaCDM.ComovingTransverseDistance c p ⟨70, 0.3, 0, 0, 0⟩ 0.5 - 1710.1240353| ≤
        1e-6 * 1710.1240353 ∧
      |LambdaCDM.ComovingTransverseDistance c p ⟨70, 0.3, 0, 0, 0⟩ 1 - 2936.1472205| ≤
        1e-6 * 2936.1472205 ∧
      |LambdaCDM.ComovingTransverseDistance c p ⟨70, 0.3, 0, 0, 0⟩ 2 - 4747.54480615| ≤
        1e-6 * 4747.54480615 ∧
      |LambdaCDM.ComovingTransverseDistance c p ⟨70, 0.3, 0, 0, 0⟩ 3 - 6107.95517311| ≤
        1e-6 * 6107.95517311 := by
  have hT : ∀ z : ℝ, LambdaCDM.ComovingTransverseDistance c p ⟨70, 0.3, 0, 0, 0⟩ z =
      comovingTransverseDistanceOM c z 0.3 70 :=
    fun z => lambdaCDM_transverse_matter_open c p ⟨70, 0.3, 0, 0, 0⟩ z rfl (by norm_num)
  refine ⟨?_, ?_, ?_, ?_⟩
  · rw [hT]
    refine mattig_reference_bound c 0.5 1710.1240353 1.07238052947 1.07238052948 hc
      (by norm_num) ?_ ?_ (by norm_num) (by norm_num)
    · rw [Real.le_sqrt' (by norm_num)]
      norm_num
    · rw [Real.sqrt_le_left (by norm_num)]
      norm_num
  · rw [hT]
    refine mattig_reference_bound c 1 2936.1472205 1.14017542509 1.14017542510 hc
      (by norm_num) ?_ ?_ (by norm_num) (by norm_num)
    · rw [Real.le_sqrt' (by norm_num)]
      norm_num
    · rw [Real.sqrt_le_left (by norm_num)]
      norm_num
  · rw [hT]
    refine mattig_reference_bound c 2 4747.54480615 1.26491106406 1.26491106407 hc
      (by norm_num) ?_ ?_ (by norm_num) (by norm_num)
    · rw [Real.le_sqrt' (by norm_num)]
      norm_num
    · rw [Real.sqrt_le_left (by norm_num)]
      norm_num
  · rw [hT]
    refine mattig_reference_bound c 3 6107.95517311 1.37840487520 1.37840487521 hc
      (by norm_num) ?_ ?_ (by norm_num) (by norm_num)
    · rw [Real.le_sqrt' (by norm_num)]
      norm_num
    · rw [Real.sqrt_le_left (by norm_num)]
      norm_num

/-- Instance of C22 at the sample constants, whose speed of light is `299792.458`. -/
theorem comovingTransverseDistance_reference_table_witness :
    |LambdaCDM.ComovingTransverseDistance sampleConsts samplePrims ⟨70, 0.3, 0, 0, 0⟩ 0.5 -
          1710.1240353| ≤ 1e-6 * 1710.1240353 ∧
      |LambdaCDM.ComovingTransverseDistance sampleConsts samplePrims ⟨70, 0.3, 0, 0, 0⟩ 1 -
          2936.1472205| ≤ 1e-6 * 2936.1472205 ∧
      |LambdaCDM.ComovingTransverseDistance sampleConsts samplePrims ⟨70, 0.3, 0, 0, 0⟩ 2 -
          4747.54480615| ≤ 1e-6 * 4747.54480615 ∧
      |LambdaCDM.ComovingTransverseDistance sampleConsts samplePrims ⟨70, 0.3, 0, 0, 0⟩ 3 -
          6107.95517311| ≤ 1e-6 * 6107.95517311 :=
  comovingTransverseDistance_reference_table sampleConsts samplePrims rfl

/-! ## The dark-energy-only age closed form as an improper integral -/

/-- The hyperbolic cosine that goes with the argument of `asinh` in `ageOL`. -/
theorem ageOL_core_sqrt (L t : ℝ) (hL : 0 < L) (hL1 : L < 1) (ht : 0 < 1 + t) :
    Real.sqrt (1 + (1 / ((1 + t) * Real.sqrt (1 / L - 1))) ^ 2) =
      Real.sqrt ((1 - L) * (1 + t) ^ 2 + L) /
        (Real.sqrt L * ((1 + t) * Real.sqrt (1 / L - 1))) := by
  have hq : 0 < 1 / L - 1 := by
    rw [sub_pos, one_lt_div hL]
    exact hL1
  have ha : 0 < Real.sqrt (1 / L - 1) := Real.sqrt_pos.mpr hq
  have hsL : 0 < Real.sqrt L := Real.sqrt_pos.mpr hL
  have hR : 0 < (1 - L) * (1 + t) ^ 2 + L := by
    have : 0 < 1 - L := by linarith
    positivity
  have hrhs : 0 ≤ Real.sqrt ((1 - L) * (1 + t) ^ 2 + L) /
      (Real.sqrt L * ((1 + t) * Real.sqrt (1 / L - 1))) := by positivity
  rw [← Real.sqrt_sq hrhs]
  congr 1
  rw [div_pow, div_pow, mul_pow, mul_pow, mul_pow, Real.sq_sqrt hR.le, Real.sq_sqrt hL.le,
    Real.sq_sqrt hq.le, one_pow]
  have hk : (1 : ℝ) - L ≠ 0 := by
    have : 0 < 1 - L := by linarith
    exact this.ne'
  have ht0 : 1 + t ≠ 0 := ht.ne'
  have hL0 : L ≠ 0 := hL.ne'
  field_simp
  ring

/-- Derivative of the bracket of `ageOL`: it is `-1/((1+t) * sqrt((1-L)*(1+t)^2 + L))`. -/
theorem ageOL_core_hasDerivAt (L t : ℝ) (hL : 0 < L) (hL1 : L < 1) (ht : 0 < 1 + t) :
    HasDerivAt
      (fun x : ℝ => 1 / Real.sqrt L * Real.arsinh (1 / ((1 + x) * Real.sqrt (1 / L - 1))))
      (-(1 / ((1 + t) * Real.sqrt ((1 - L) * (1 + t) ^ 2 + L)))) t := by
  have hq : 0 < 1 / L - 1 := by
    rw [sub_pos, one_lt_div hL]
    exact hL1
  have ha : 0 < Real.sqrt (1 / L - 1) := Real.sqrt_pos.mpr hq
  have hsL : 0 < Real.sqrt L := Real.sqrt_pos.mpr hL
  have hR : 0 < (1 - L) * (1 + t) ^ 2 + L := by
    have : 0 < 1 - L := by linarith
    positivity
  have hsR : 0 < Real.sqrt ((1 - L) * (1 + t) ^ 2 + L) := Real.sqrt_pos.mpr hR
  have h1 : HasDerivAt (fun x : ℝ => (1 + x) * Real.sqrt (1 / L - 1)) (Real.sqrt (1 / L - 1)) t := by
    simpa using ((hasDerivAt_id t).const_add 1).mul_const (Real.sqrt (1 / L - 1))
  have h2 := (hasDerivAt_const t (1 : ℝ)).div h1 (by positivity)
  have h3 := (h2.arsinh).const_mul (1 / Real.sqrt L)
  convert h3 using 1
  rw [ageOL_core_sqrt L t hL hL1 ht, smul_eq_mul]
  have ht0 : 1 + t ≠ 0 := ht.ne'
  clear h1 h2 h3 hq hR
  generalize Real.sqrt (1 / L - 1) = a at ha ⊢
  generalize Real.sqrt L = sL at hsL ⊢
  generalize Real.sqrt ((1 - L) * (1 + t) ^ 2 + L) = R at hsR ⊢
  field_simp
  ring

/-- The bracket of `ageOL` tends to `0` as the redshift tends to `+∞`. -/
theorem ageOL_core_tendsto (L : ℝ) (hL : 0 < L) (hL1 : L < 1) :
    Filter.Tendsto
      (fun x : ℝ => 1 / Real.sqrt L * Real.arsinh (1 / ((1 + x) * Real.sqrt (1 / L - 1))))
      Filter.atTop (nhds 0) := by
  have hq : 0 < 1 / L - 1 := by
    rw [sub_pos, one_lt_div hL]
    exact hL1
  have ha : 0 < Real.sqrt (1 / L - 1) := Real.sqrt_pos.mpr hq
  have hx1 : Filter.Tendsto (fun x : ℝ => 1 + x) Filter.atTop Filter.atTop :=
    Filter.tendsto_atTop_add_const_left _ 1 Filter.tendsto_id
  have hden : Filter.Tendsto (fun x : ℝ => (1 + x) * Real.sqrt (1 / L - 1))
      Filter.atTop Filter.atTop := hx1.atTop_mul_const ha
  have hg : Filter.Tendsto (fun x : ℝ => 1 / ((1 + x) * Real.sqrt (1 / L - 1)))
      Filter.atTop (nhds 0) := tendsto_const_nhds.div_atTop hden
  have hars : Filter.Tendsto
      (fun x : ℝ => Real.arsinh (1 / ((1 + x) * Real.sqrt (1 / L - 1))))
      Filter.atTop (nhds 0) := by
    have h := (Real.continuous_arsinh.tendsto 0).comp hg
    simpa using h
  have h := hars.const_mul (1 / Real.sqrt L)
  simpa using h

/-- The expansion rate of the dark-energy-only model without radiation:
`E(t) = sqrt((1-Ol0)*(1+t)^2 + Ol0)`. -/
theorem lambdaCDM_E_dark_energy (H0 Ol0 t : ℝ) :
    LambdaCDM.E ⟨H0, 0, Ol0, 0, 0⟩ t = Real.sqrt ((1 - Ol0) * (1 + t) ^ 2 + Ol0) := by
  simp only [LambdaCDM.E]
  congr 1
  ring

/-- C21: the dark-energy-only age closed form is the improper integral from `z` to
`+∞`.  For `0 < Ol0 < 1`, `H0 > 0` and `z > -1`,
`ageOL(z, Ol0, H0) = hubbleTime(H0) * ∫_z^∞ dz' / ((1+z') * sqrt((1-Ol0)*(1+z')^2 + Ol0))`,
the integrand being `1/((1+z') * E(z'))` of `LambdaCDM{Om0: 0, Ol0}`. -/
theorem ageOL_eq_integral (c : Consts) (Ol0 H0 z : ℝ) (hOl0 : 0 < Ol0) (hOl1 : Ol0 < 1)
    (hH : 0 < H0) (hz : -1 < z) :
    ageOL c z Ol0 H0 =
        hubbleTime c H0 *
          ∫ t in Set.Ioi z, 1 / ((1 + t) * Real.sqrt ((1 - Ol0) * (1 + t) ^ 2 + Ol0)) ∧
      (∀ t : ℝ, 1 / ((1 + t) * Real.sqrt ((1 - Ol0) * (1 + t) ^ 2 + Ol0)) =
        1 / ((1 + t) * LambdaCDM.E ⟨H0, 0, Ol0, 0, 0⟩ t)) ∧
      ageOL c z Ol0 H0 =
        hubbleTime c H0 *
          ∫ t in Set.Ioi z, 1 / ((1 + t) * LambdaCDM.E ⟨H0, 0, Ol0, 0, 0⟩ t) := by
  have _hH := hH
  have hderiv : ∀ t : ℝ, -1 < t →
      HasDerivAt
        (fun x : ℝ => -(1 / Real.sqrt Ol0 *
          Real.arsinh (1 / ((1 + x) * Real.sqrt (1 / Ol0 - 1)))))
        (1 / ((1 + t) * Real.sqrt ((1 - Ol0) * (1 + t) ^ 2 + Ol0))) t := by
    intro t ht
    have h := (ageOL_core_hasDerivAt Ol0 t hOl0 hOl1 (by linarith)).neg
    rwa [neg_neg] at h
  have hlim := (ageOL_core_tendsto Ol0 hOl0 hOl1).neg
  rw [neg_zero] at hlim
  have hint := MeasureTheory.integral_Ioi_of_hasDerivAt_of_nonneg'
    (fun t (ht : t ∈ Set.Ici z) => hderiv t (lt_of_lt_of_le hz ht))
    (fun t (ht : t ∈ Set.Ioi z) => by
      have h1 : 0 < 1 + t := by
        have : z < t := ht
        linarith
      have hk : 0 < 1 - Ol0 := by linarith
      have hR : 0 < (1 - Ol0) * (1 + t) ^ 2 + Ol0 := by positivity
      have hs : 0 < Real.sqrt ((1 - Ol0) * (1 + t) ^ 2 + Ol0) := Real.sqrt_pos.mpr hR
      positivity)
    hlim
  have hmain : ageOL c z Ol0 H0 =
      hubbleTime c H0 *
        ∫ t in Set.Ioi z, 1 / ((1 + t) * Real.sqrt ((1 - Ol0) * (1 + t) ^ 2 + Ol0)) := by
    rw [hint]
    simp only [ageOL]
    ring
  refine ⟨hmain, fun t => ?_, ?_⟩
  · rw [lambdaCDM_E_dark_energy]
  · rw [hmain]
    simp only [lambdaCDM_E_dark_energy]

/-- Instance of C21 at `Ol0 = 0.5`, `H0 = 70`, `z = 0.5`. -/
theorem ageOL_eq_integral_witness :
    ageOL sampleConsts 0.5 0.5 70 =
        hubbleTime sampleConsts 70 *
          ∫ t in Set.Ioi (0.5 : ℝ),
            1 / ((1 + t) * Real.sqrt ((1 - 0.5) * (1 + t) ^ 2 + 0.5)) ∧
      (∀ t : ℝ, 1 / ((1 + t) * Real.sqrt ((1 - 0.5) * (1 + t) ^ 2 + 0.5)) =
        1 / ((1 + t) * LambdaCDM.E ⟨70, 0, 0.5, 0, 0⟩ t)) ∧
      ageOL sampleConsts 0.5 0.5 70 =
        hubbleTime sampleConsts 70 *
          ∫ t in Set.Ioi (0.5 : ℝ), 1 / ((1 + t) * LambdaCDM.E ⟨70, 0, 0.5, 0, 0⟩ t) :=
  ageOL_eq_integral sampleConsts 0.5 70 0.5 (by norm_num) (by norm_num) (by norm_num)
    (by norm_num)

/-! ## Radiation on the shortcut paths -/

/-- C31: radiation is ignored on the shortcut paths.  Two `LambdaCDM` parameter sets
that differ only in `Ogamma0` and `Onu0`, with `Ol0 = 0` or with `Ok0() = 0` and
`Om0 < 1`, have the same `ComovingDistanceZ1Z2(z1, z2)`, and the same `Age(z)` and
`LookbackTime(z)` unless `Ol0 = 0` with `Om0 ≤ 0` or `Om0 = 1` (where these two
integrate); `E` does depend on the radiation densities (at `z = 0` it is `1` without
radiation and `2` with `Ogamma0 = 3`). -/
theorem lambdaCDM_shortcuts_ignore_radiation (c : Consts) (p : Prims)
    (H0 Om0 Ol0 Og On Og2 On2 z z1 z2 : ℝ)
    (h : Ol0 = 0 ∨ (LambdaCDM.Ok0 ⟨H0, Om0, Ol0, Og, On⟩ = 0 ∧ Om0 < 1)) :
    LambdaCDM.ComovingDistanceZ1Z2 c p ⟨H0, Om0, Ol0, Og, On⟩ z1 z2 =
        LambdaCDM.ComovingDistanceZ1Z2 c p ⟨H0, Om0, Ol0, Og2, On2⟩ z1 z2 ∧
      (¬ (Ol0 = 0 ∧ (Om0 ≤ 0 ∨ Om0 = 1)) →
        LambdaCDM.Age c p ⟨H0, Om0, Ol0, Og, On⟩ z =
            LambdaCDM.Age c p ⟨H0, Om0, Ol0, Og2, On2⟩ z ∧
          LambdaCDM.LookbackTime c p ⟨H0, Om0, Ol0, Og, On⟩ z =
            LambdaCDM.LookbackTime c p ⟨H0, Om0, Ol0, Og2, On2⟩ z) ∧
      LambdaCDM.E ⟨H0, Om0, Ol0, 0, 0⟩ 0 ≠ LambdaCDM.E ⟨H0, Om0, Ol0, 3, 0⟩ 0 := by
  have hOk : LambdaCDM.Ok0 ⟨H0, Om0, Ol0, Og2, On2⟩ = LambdaCDM.Ok0 ⟨H0, Om0, Ol0, Og, On⟩ := rfl
  refine ⟨?_, ?_, ?_⟩
  · rcases h with hOl | hflat
    · have hnf : ¬ (LambdaCDM.Ok0 ⟨H0, Om0, Ol0, Og, On⟩ = 0 ∧ Om0 < 1) := by
        rintro ⟨hk, hm⟩
        simp only [LambdaCDM.Ok0, hOl] at hk
        linarith
      simp only [LambdaCDM.ComovingDistanceZ1Z2, hOk, if_neg hnf, if_pos hOl]
    · simp only [LambdaCDM.ComovingDistanceZ1Z2, hOk, if_pos hflat]
  · intro hex
    rcases h with hOl | hflat
    · have hnf : ¬ (LambdaCDM.Ok0 ⟨H0, Om0, Ol0, Og, On⟩ = 0 ∧ Om0 < 1) := by
        rintro ⟨hk, hm⟩
        simp only [LambdaCDM.Ok0, hOl] at hk
        linarith
      have hOM : Ol0 = 0 ∧ 0 < Om0 ∧ Om0 ≠ 1 := by
        refine ⟨hOl, ?_, ?_⟩
        · by_contra hle
          exact hex ⟨hOl, Or.inl (not_lt.mp hle)⟩
        · intro h1
          exact hex ⟨hOl, Or.inr h1⟩
      simp only [LambdaCDM.Age, LambdaCDM.LookbackTime, hOk, if_neg hnf, if_pos hOM, and_self]
    · simp only [LambdaCDM.Age, LambdaCDM.LookbackTime, hOk, if_pos hflat, and_self]
  · rw [lambdaCDM_E_zero, lambdaCDM_E_zero]
    have h1 : Real.sqrt (1 + ((0 : ℝ) + 0)) = 1 := by
      rw [show (1 : ℝ) + (0 + 0) = 1 by norm_num, Real.sqrt_one]
    have h2 : Real.sqrt (1 + ((3 : ℝ) + 0)) = 2 := by
      rw [show (1 : ℝ) + (3 + 0) = 2 * 2 by norm_num]
      exact Real.sqrt_mul_self (by norm_num)
    rw [h1, h2]
    norm_num

/-- Instance of C31 at `LambdaCDM{H0: 70, Om0: 0.3, Ol0: 0}` against the same model
with `Ogamma0 = 0.21`, `Onu0 = 0.1`. -/
theorem lambdaCDM_shortcuts_ignore_radiation_witness :
    LambdaCDM.ComovingDistanceZ1Z2 sampleConsts samplePrims ⟨70, 0.3, 0, 0, 0⟩ 0 1 =
        LambdaCDM.ComovingDistanceZ1Z2 sampleConsts samplePrims ⟨70, 0.3, 0, 0.21, 0.1⟩ 0 1 ∧
      (LambdaCDM.Age sampleConsts samplePrims ⟨70, 0.3, 0, 0, 0⟩ 0.5 =
          LambdaCDM.Age sampleConsts samplePrims ⟨70, 0.3, 0, 0.21, 0.1⟩ 0.5 ∧
        LambdaCDM.LookbackTime sampleConsts samplePrims ⟨70, 0.3, 0, 0, 0⟩ 0.5 =
          LambdaCDM.LookbackTime sampleConsts samplePrims ⟨70, 0.3, 0, 0.21, 0.1⟩ 0.5) ∧
      LambdaCDM.E ⟨70, 0.3, 0, 0, 0⟩ 0 ≠ LambdaCDM.E ⟨70, 0.3, 0, 3, 0⟩ 0 :=
  ⟨(lambdaCDM_shortcuts_ignore_radiation sampleConsts samplePrims 70 0.3 0 0 0 0.21 0.1 0.5 0 1
      (Or.inl rfl)).1,
    (lambdaCDM_shortcuts_ignore_radiation sampleConsts samplePrims 70 0.3 0 0 0 0.21 0.1 0.5 0 1
      (Or.inl rfl)).2.1 (by norm_num),
    (lambdaCDM_shortcuts_ignore_radiation sampleConsts samplePrims 70 0.3 0 0 0 0.21 0.1 0.5 0 1
      (Or.inl rfl)).2.2⟩

/-! ## Scaling with the Hubble constant -/

/-- The Hubble time scales inversely with the Hubble constant. -/
theorem hubbleTime_scale (c : Consts) (k H0 : ℝ) :
    hubbleTime c (k * H0) = hubbleTime c H0 / k := by
  simp only [hubbleTime]
  rw [one_div, one_div, mul_inv]
  ring

/-- C32: closed-form distances and times scale inversely with the Hubble constant.
For `k > 0`, `H0 > 0`, `Om0 > 0`, `0 < Ol0 < 1` and every `z`,
`comovingTransverseDistanceOM`, `comovingDistanceOM`, `ageOM` at `k*H0` are their
values at `H0` divided by `k`, and so is `ageOL`. -/
theorem closed_forms_scale_with_H0 (c : Consts) (k H0 Om0 Ol0 z : ℝ) (hk : 0 < k) (hH : 0 < H0)
    (hOm : 0 < Om0) (hOl0 : 0 < Ol0) (hOl1 : Ol0 < 1) :
    comovingTransverseDistanceOM c z Om0 (k * H0) = comovingTransverseDistanceOM c z Om0 H0 / k ∧
      comovingDistanceOM c z Om0 (k * H0) = comovingDistanceOM c z Om0 H0 / k ∧
      ageOM c z Om0 (k * H0) = ageOM c z Om0 H0 / k ∧
      ageOL c z Ol0 (k * H0) = ageOL c z Ol0 H0 / k := by
  have _h : 0 < H0 ∧ 0 < Om0 ∧ 0 < Ol0 ∧ Ol0 < 1 := ⟨hH, hOm, hOl0, hOl1⟩
  have hk0 : k ≠ 0 := hk.ne'
  have hD : c.SpeedOfLightKmS / (k * H0) = c.SpeedOfLightKmS / H0 / k := by
    rw [div_div, mul_comm]
  have hT : comovingTransverseDistanceOM c z Om0 (k * H0) =
      comovingTransverseDistanceOM c z Om0 H0 / k := by
    simp only [comovingTransverseDistanceOM, hD]
    ring
  refine ⟨hT, ?_, ?_, ?_⟩
  · simp only [comovingDistanceOM, hT, hD]
    split_ifs with h0
    · rfl
    · rw [div_right_comm (c.SpeedOfLightKmS / H0) k, div_div_div_cancel_right₀ hk0]
      ring
  · simp only [ageOM, hubbleTime_scale]
    split_ifs <;> ring
  · simp only [ageOL, hubbleTime_scale]
    ring

/-- Instance of C32 at `k = 2`, `H0 = 70`, `Om0 = 0.3`, `Ol0 = 0.5`, `z = 0.5`. -/
theorem closed_forms_scale_with_H0_witness :
    comovingTransverseDistanceOM sampleConsts 0.5 0.3 (2 * 70) =
        comovingTransverseDistanceOM sampleConsts 0.5 0.3 70 / 2 ∧
      comovingDistanceOM sampleConsts 0.5 0.3 (2 * 70) =
        comovingDistanceOM sampleConsts 0.5 0.3 70 / 2 ∧
      ageOM sampleConsts 0.5 0.3 (2 * 70) = ageOM sampleConsts 0.5 0.3 70 / 2 ∧
      ageOL sampleConsts 0.5 0.5 (2 * 70) = ageOL sampleConsts 0.5 0.5 70 / 2 :=
  closed_forms_scale_with_H0 sampleConsts 2 70 0.3 0.5 0.5 (by norm_num) (by norm_num)
    (by norm_num) (by norm_num) (by norm_num)

/-! ## Look-back time against age in the closed-form regimes -/

/-- In the closed-form regimes `LookbackTime(z)` is the difference of the closed form
that `Age` returns, taken at `0` and at `z`. -/
theorem lookbackTime_eq_age_diff_of_regime (c : Consts) (p : Prims) (cosL : LambdaCDM)
    (cosW : WACDM) (z : ℝ)
    (hL : (cosL.Ol0 = 0 ∧ 0 < cosL.Om0 ∧ cosL.Om0 ≠ 1) ∨
      (cosL.Om0 = 0 ∧ 0 < cosL.Ol0 ∧ cosL.Ol0 < 1))
    (hW : cosW.Ol0 = 0 ∧ 0 < cosW.Om0 ∧ cosW.Om0 ≠ 1) :
    LambdaCDM.LookbackTime c p cosL z = LambdaCDM.Age c p cosL 0 - LambdaCDM.Age c p cosL z ∧
      WACDM.LookbackTime c p cosW z = WACDM.Age c p cosW 0 - WACDM.Age c p cosW z := by
  constructor
  · rcases hL with hOM | hOL
    · have hflat : ¬ (cosL.Ok0 = 0 ∧ cosL.Om0 < 1) := by
        rintro ⟨hk, -⟩
        simp only [LambdaCDM.Ok0, hOM.1] at hk
        exact hOM.2.2 (by linarith)
      simp only [LambdaCDM.LookbackTime, LambdaCDM.Age, if_neg hflat, if_pos hOM,
        lookbackTimeOM]
    · have hflat : ¬ (cosL.Ok0 = 0 ∧ cosL.Om0 < 1) := by
        rintro ⟨hk, -⟩
        simp only [LambdaCDM.Ok0, hOL.1] at hk
        linarith [hOL.2.2]
      have hOM : ¬ (cosL.Ol0 = 0 ∧ 0 < cosL.Om0 ∧ cosL.Om0 ≠ 1) := by
        rintro ⟨-, h, -⟩
        rw [hOL.1] at h
        exact lt_irrefl _ h
      simp only [LambdaCDM.LookbackTime, LambdaCDM.Age, if_neg hflat, if_neg hOM, if_pos hOL,
        lookbackTimeOL]
  · simp only [WACDM.LookbackTime, WACDM.Age, if_pos hW, lookbackTimeOM]

/-- For `0 < Om0 < 1`, `z > -1`, `H0 ≠ 0` and a non-zero `secInAGyr` every operation of
`ageOM` stays in the real numbers and the partial reading returns the total one. -/
theorem ageOMChecked_eq_some (c : Consts) (z Om0 H0 : ℝ) (hH : H0 ≠ 0)
    (hsec : c.secInAGyr ≠ 0) (hOm0 : 0 < Om0) (hOm1 : Om0 < 1) (hz : 0 < 1 + z) :
    ageOMChecked c z Om0 H0 = some (ageOM c z Om0 H0) := by
  have hne : Om0 ≠ 1 := hOm1.ne
  have hOm : Om0 ≠ 0 := hOm0.ne'
  have hz0 : 1 + z ≠ 0 := hz.ne'
  have hk : ¬ (1 - Om0 ≤ 0) := by
    intro h
    linarith
  have hk0 : (1 - Om0) * (1 + z) ≠ 0 := by
    have : 0 < 1 - Om0 := by linarith
    positivity
  have hrad : ¬ (1 + Om0 * z < 0) := by
    intro h
    nlinarith
  have hq : ¬ ((1 / Om0 - 1) / (1 + z) < 0) := by
    intro h
    have h1 : 0 < 1 / Om0 - 1 := by
      rw [sub_pos, one_lt_div hOm0]
      exact hOm1
    have h2 : 0 < (1 / Om0 - 1) / (1 + z) := div_pos h1 hz
    linarith
  have hq2 : ¬ ((Om0⁻¹ - 1) / (1 + z) < 0) := by
    rwa [one_div] at hq
  simp [ageOMChecked, hubbleTimeChecked, divChecked, sqrtChecked, powChecked, ageOM, hubbleTime,
    hH, hsec, hne, hOm, hz0, hk, hk0, hrad, hq2]

/-- Where `ageOM` stays in the real numbers (`0 < Om0 < 1`), the look-back time at
`z = 0` is the real number `0`. -/
theorem lookbackTimeOMChecked_zero (c : Consts) (Om0 H0 : ℝ) (hH : H0 ≠ 0)
    (hsec : c.secInAGyr ≠ 0) (hOm0 : 0 < Om0) (hOm1 : Om0 < 1) :
    lookbackTimeOMChecked c 0 Om0 H0 = some 0 := by
  have h := ageOMChecked_eq_some c 0 Om0 H0 hH hsec hOm0 hOm1 (by norm_num)
  simp [lookbackTimeOMChecked, h]

/-- C15 (the code at the failing input): at `LambdaCDM{H0: 70, Om0: 2, Ol0: 0}` the
matter-only case fires, so `Age(0) = ageOM(0, 2, 70)` and
`LookbackTime(0) = ageOM(0, 2, 70) - ageOM(0, 2, 70)`; `ageOM` raises `1 - Om0 = -1`
to the power `-3/2` and takes the square root of `(1/Om0 - 1)/(1+z) = -1/2`, so with
partial operations `ageOM(0, 2, 70)` and `lookbackTimeOM(0, 2, 70)` are not real
numbers (`NaN` in Go), and `LookbackTime(0)` is not `0`. -/
theorem lookbackTime_closed_matter_out_of_domain :
    LambdaCDM.Age sampleConsts samplePrims ⟨70, 2, 0, 0, 0⟩ 0 = ageOM sampleConsts 0 2 70 ∧
      LambdaCDM.LookbackTime sampleConsts samplePrims ⟨70, 2, 0, 0, 0⟩ 0 =
        ageOM sampleConsts 0 2 70 - ageOM sampleConsts 0 2 70 ∧
      (1 : ℝ) - 2 < 0 ∧
      ((1 : ℝ) / 2 - 1) / (1 + 0) < 0 ∧
      ageOMChecked sampleConsts 0 2 70 = none ∧
      lookbackTimeOMChecked sampleConsts 0 2 70 = none ∧
      lookbackTimeOMChecked sampleConsts 0 2 70 ≠ some 0 := by
  have hflat : ¬ (LambdaCDM.Ok0 ⟨70, 2, 0, 0, 0⟩ = 0 ∧ (2 : ℝ) < 1) := by
    rintro ⟨-, h⟩
    norm_num at h
  have hOM : (0 : ℝ) = 0 ∧ (0 : ℝ) < 2 ∧ (2 : ℝ) ≠ 1 := by norm_num
  have hA : ageOMChecked sampleConsts 0 2 70 = none := by
    simp [ageOMChecked, hubbleTimeChecked, divChecked, sqrtChecked, powChecked, sampleConsts]
  have hLB : lookbackTimeOMChecked sampleConsts 0 2 70 = none := by
    simp [lookbackTimeOMChecked, hA]
  refine ⟨?_, ?_, by norm_num, by norm_num, hA, hLB, ?_⟩
  · show LambdaCDM.Age sampleConsts samplePrims ⟨70, 2, 0, 0, 0⟩ 0 = _
    unfold LambdaCDM.Age
    rw [if_neg hflat, if_pos hOM]
  · show LambdaCDM.LookbackTime sampleConsts samplePrims ⟨70, 2, 0, 0, 0⟩ 0 = _
    unfold LambdaCDM.LookbackTime
    rw [if_neg hflat, if_pos hOM]
    rfl
  · rw [hLB]
    exact Option.noConfusion

/-! ## Additivity of the two-redshift matter closed form -/

/-- For `Om0 ≠ 0`, `Om0 ≤ 1`, `H0 ≠ 0`, a non-zero speed of light and a redshift with
`1 + z ≠ 0` and `1 + Om0*z ≥ 0`, every operation of `comovingDistanceOM` stays in the
real numbers and the partial reading returns the total one. -/
theorem comovingDistanceOMChecked_eq_some (c : Consts) (z Om0 H0 : ℝ)
    (hc : c.SpeedOfLightKmS ≠ 0) (hH : H0 ≠ 0) (hOm : Om0 ≠ 0) (hOm1 : Om0 ≤ 1)
    (hz : 1 + z ≠ 0) (hrad : 0 ≤ 1 + Om0 * z) :
    comovingDistanceOMChecked c z Om0 H0 = some (comovingDistanceOM c z Om0 H0) := by
  have hden : (1 + z) * Om0 * Om0 ≠ 0 := mul_ne_zero (mul_ne_zero hz hOm) hOm
  have hr : ¬ (1 + Om0 * z < 0) := not_lt.mpr hrad
  rcases eq_or_lt_of_le hOm1 with h1 | h1
  · subst h1
    have hr1 : ¬ (1 + z < 0) := by
      rwa [one_mul] at hr
    simp [comovingDistanceOMChecked, comovingTransverseDistanceOMChecked, divChecked,
      sqrtChecked, comovingDistanceOM, comovingTransverseDistanceOM, hH, hz, hr1]
  · have hk : 0 < 1 - Om0 := by linarith
    have hk0 : (1 : ℝ) - Om0 ≠ 0 := hk.ne'
    have hkn : ¬ (1 - Om0 < 0) := not_lt.mpr hk.le
    have hs : Real.sqrt (1 - Om0) ≠ 0 := (Real.sqrt_pos.mpr hk).ne'
    simp [comovingDistanceOMChecked, comovingTransverseDistanceOMChecked, divChecked,
      sqrtChecked, comovingDistanceOM, comovingTransverseDistanceOM, hc, hH, hOm, hz, hr, hk0,
      hkn, hs]

/-- The two-redshift form in the same domain at both redshifts. -/
theorem comovingDistanceOMZ1Z2Checked_eq_some (c : Consts) (z1 z2 Om0 H0 : ℝ)
    (hc : c.SpeedOfLightKmS ≠ 0) (hH : H0 ≠ 0) (hOm : Om0 ≠ 0) (hOm1 : Om0 ≤ 1)
    (hz1 : 1 + z1 ≠ 0) (hrad1 : 0 ≤ 1 + Om0 * z1)
    (hz2 : 1 + z2 ≠ 0) (hrad2 : 0 ≤ 1 + Om0 * z2) :
    comovingDistanceOMZ1Z2Checked c z1 z2 Om0 H0 =
      some (comovingDistanceOMZ1Z2 c z1 z2 Om0 H0) := by
  simp [comovingDistanceOMZ1Z2Checked, comovingDistanceOMZ1Z2,
    comovingDistanceOMChecked_eq_some c z1 Om0 H0 hc hH hOm hOm1 hz1 hrad1,
    comovingDistanceOMChecked_eq_some c z2 Om0 H0 hc hH hOm hOm1 hz2 hrad2]

/-- C30 (counterexample): at `Om0 = 0` Mattig's expression divides `0` by
`(1+z)*Om0*Om0 = 0`, so with partial operations `comovingDistanceOM(0, 0, 70)` and
`comovingDistanceOMZ1Z2(1, 1, 0, 70)` are not real numbers (`NaN` in Go): neither
is `0`.  The same happens at a redshift with `1 + z = 0` (`z = -1`) or with
`1 + Om0*z < 0` (`z = -4` at `Om0 = 0.3`). -/
theorem comovingDistanceOM_zero_fails_at_Om0_zero :
    (1 + (0 : ℝ)) * 0 * 0 = 0 ∧
      comovingDistanceOMChecked sampleConsts 0 0 70 = none ∧
      comovingDistanceOMChecked sampleConsts 0 0 70 ≠ some 0 ∧
      comovingDistanceOMZ1Z2Checked sampleConsts 1 1 0 70 = none ∧
      comovingDistanceOMZ1Z2Checked sampleConsts 1 1 0 70 ≠ some 0 ∧
      comovingDistanceOMZ1Z2Checked sampleConsts (-1) (-1) 0.3 70 = none ∧
      comovingDistanceOMZ1Z2Checked sampleConsts (-4) (-4) 0.3 70 = none := by
  have h0 : comovingDistanceOMChecked sampleConsts 0 0 70 = none := by
    simp [comovingDistanceOMChecked, comovingTransverseDistanceOMChecked, divChecked,
      sqrtChecked, sampleConsts]
  have h1 : comovingDistanceOMChecked sampleConsts 1 0 70 = none := by
    simp [comovingDistanceOMChecked, comovingTransverseDistanceOMChecked, divChecked,
      sqrtChecked, sampleConsts]
  have h11 : comovingDistanceOMZ1Z2Checked sampleConsts 1 1 0 70 = none := by
    simp [comovingDistanceOMZ1Z2Checked, h1]
  have hm1 : comovingDistanceOMChecked sampleConsts (-1) 0.3 70 = none := by
    simp [comovingDistanceOMChecked, comovingTransverseDistanceOMChecked, divChecked,
      sqrtChecked, sampleConsts]
  have hm4 : comovingDistanceOMChecked sampleConsts (-4) 0.3 70 = none := by
    have hneg : (1 : ℝ) < 0.3 * 4 := by norm_num
    simp [comovingDistanceOMChecked, comovingTransverseDistanceOMChecked, divChecked,
      sqrtChecked, sampleConsts, hneg]
  refine ⟨by norm_num, h0, ?_, h11, ?_, ?_, ?_⟩
  · rw [h0]
    exact Option.noConfusion
  · rw [h11]
    exact Option.noConfusion
  · simp [comovingDistanceOMZ1Z2Checked, hm1]
  · simp [comovingDistanceOMZ1Z2Checked, hm4]

/-- C30 (amended): for `Om0 ≠ 0` with `Om0 ≤ 1`, `H0 ≠ 0`, a non-zero speed of light and
redshifts `z, z1, z2, z3` with `1 + z ≠ 0` and `1 + Om0*z ≥ 0`, every value below is a
real number and the two-redshift matter closed form is additive along the line of
sight: `comovingDistanceOMZ1Z2(z1, z3) = comovingDistanceOMZ1Z2(z1, z2) +
comovingDistanceOMZ1Z2(z2, z3)`, `comovingDistanceOMZ1Z2(z, z) = 0`,
`comovingDistanceOMZ1Z2(z1, z2) = -comovingDistanceOMZ1Z2(z2, z1)`,
`comovingDistanceOM(0, Om0, H0) = 0` and
`comovingDistanceOMZ1Z2(0, z) = comovingDistanceOM(z)`. -/
theorem comovingDistanceOMZ1Z2_additive_in_domain (c : Consts) (z z1 z2 z3 Om0 H0 : ℝ)
    (hc : c.SpeedOfLightKmS ≠ 0) (hH : H0 ≠ 0) (hOm : Om0 ≠ 0) (hOm1 : Om0 ≤ 1)
    (hz : 1 + z ≠ 0) (hrad : 0 ≤ 1 + Om0 * z)
    (hz1 : 1 + z1 ≠ 0) (hrad1 : 0 ≤ 1 + Om0 * z1)
    (hz2 : 1 + z2 ≠ 0) (hrad2 : 0 ≤ 1 + Om0 * z2)
    (hz3 : 1 + z3 ≠ 0) (hrad3 : 0 ≤ 1 + Om0 * z3) :
    (comovingDistanceOMZ1Z2Checked c z1 z3 Om0 H0 =
          some (comovingDistanceOMZ1Z2 c z1 z2 Om0 H0 + comovingDistanceOMZ1Z2 c z2 z3 Om0 H0) ∧
        comovingDistanceOMZ1Z2Checked c z1 z2 Om0 H0 =
          some (comovingDistanceOMZ1Z2 c z1 z2 Om0 H0) ∧
        comovingDistanceOMZ1Z2Checked c z2 z3 Om0 H0 =
          some (comovingDistanceOMZ1Z2 c z2 z3 Om0 H0)) ∧
      comovingDistanceOMZ1Z2Checked c z z Om0 H0 = some 0 ∧
      (comovingDistanceOMZ1Z2Checked c z1 z2 Om0 H0 =
          some (-comovingDistanceOMZ1Z2 c z2 z1 Om0 H0) ∧
        comovingDistanceOMZ1Z2Checked c z2 z1 Om0 H0 =
          some (comovingDistanceOMZ1Z2 c z2 z1 Om0 H0)) ∧
      comovingDistanceOMChecked c 0 Om0 H0 = some 0 ∧
      (comovingDistanceOMZ1Z2Checked c 0 z Om0 H0 = some (comovingDistanceOM c z Om0 H0) ∧
        comovingDistanceOMChecked c z Om0 H0 = some (comovingDistanceOM c z Om0 H0)) := by
  have h0 : (1 : ℝ) + 0 ≠ 0 := by norm_num
  have hr0 : (0 : ℝ) ≤ 1 + Om0 * 0 := by norm_num
  have hD0 : comovingDistanceOMChecked c 0 Om0 H0 = some 0 := by
    rw [comovingDistanceOMChecked_eq_some c 0 Om0 H0 hc hH hOm hOm1 h0 hr0,
      comovingDistanceOM_zero]
  refine ⟨⟨?_, ?_, ?_⟩, ?_, ⟨?_, ?_⟩, hD0, ⟨?_, ?_⟩⟩
  · rw [comovingDistanceOMZ1Z2Checked_eq_some c z1 z3 Om0 H0 hc hH hOm hOm1 hz1 hrad1 hz3 hrad3]
    congr 1
    simp only [comovingDistanceOMZ1Z2]
    ring
  · exact comovingDistanceOMZ1Z2Checked_eq_some c z1 z2 Om0 H0 hc hH hOm hOm1 hz1 hrad1 hz2 hrad2
  · exact comovingDistanceOMZ1Z2Checked_eq_some c z2 z3 Om0 H0 hc hH hOm hOm1 hz2 hrad2 hz3 hrad3
  · rw [comovingDistanceOMZ1Z2Checked_eq_some c z z Om0 H0 hc hH hOm hOm1 hz hrad hz hrad]
    simp only [comovingDistanceOMZ1Z2, sub_self]
  · rw [comovingDistanceOMZ1Z2Checked_eq_some c z1 z2 Om0 H0 hc hH hOm hOm1 hz1 hrad1 hz2 hrad2]
    congr 1
    simp only [comovingDistanceOMZ1Z2]
    ring
  · exact comovingDistanceOMZ1Z2Checked_eq_some c z2 z1 Om0 H0 hc hH hOm hOm1 hz2 hrad2 hz1 hrad1
  · rw [comovingDistanceOMZ1Z2Checked_eq_some c 0 z Om0 H0 hc hH hOm hOm1 h0 hr0 hz hrad]
    simp only [comovingDistanceOMZ1Z2, comovingDistanceOM_zero, sub_zero]
  · exact comovingDistanceOMChecked_eq_some c z Om0 H0 hc hH hOm hOm1 hz hrad

/-- Instance of C30 (amended) at `Om0 = 0.3`, `H0 = 70` and the redshifts
`z = 3`, `z1 = 0.5`, `z2 = 1`, `z3 = 2`. -/
theorem comovingDistanceOMZ1Z2_additive_in_domain_witness :
    (comovingDistanceOMZ1Z2Checked sampleConsts 0.5 2 0.3 70 =
          some (comovingDistanceOMZ1Z2 sampleConsts 0.5 1 0.3 70 +
            comovingDistanceOMZ1Z2 sampleConsts 1 2 0.3 70) ∧
        comovingDistanceOMZ1Z2Checked sampleConsts 0.5 1 0.3 70 =
          some (comovingDistanceOMZ1Z2 sampleConsts 0.5 1 0.3 70) ∧
        comovingDistanceOMZ1Z2Checked sampleConsts 1 2 0.3 70 =
          some (comovingDistanceOMZ1Z2 sampleConsts 1 2 0.3 70)) ∧
      comovingDistanceOMZ1Z2Checked sampleConsts 3 3 0.3 70 = some 0 ∧
      (comovingDistanceOMZ1Z2Checked sampleConsts 0.5 1 0.3 70 =
          some (-comovingDistanceOMZ1Z2 sampleConsts 1 0.5 0.3 70) ∧
        comovingDistanceOMZ1Z2Checked sampleConsts 1 0.5 0.3 70 =
          some (comovingDistanceOMZ1Z2 sampleConsts 1 0.5 0.3 70)) ∧
      comovingDistanceOMChecked sampleConsts 0 0.3 70 = some 0 ∧
      (comovingDistanceOMZ1Z2Checked sampleConsts 0 3 0.3 70 =
          some (comovingDistanceOM sampleConsts 3 0.3 70) ∧
        comovingDistanceOMChecked sampleConsts 3 0.3 70 =
          some (comovingDistanceOM sampleConsts 3 0.3 70)) :=
  comovingDistanceOMZ1Z2_additive_in_domain sampleConsts 3 0.5 1 2 0.3 70
    (by norm_num [sampleConsts]) (by norm_num) (by norm_num) (by norm_num)
    (by norm_num) (by norm_num) (by norm_num) (by norm_num)
    (by norm_num) (by norm_num) (by norm_num) (by norm_num)

end Cosmo
